import Mathlib

/-!
# RV32I simulator: `Task2/RiscVSimulator.c` and `Task3/RiscVSimulator.c`

A shallow embedding of the two fetch-decode-execute engines.

Conventions of the embedding
* `uint32_t` values are natural numbers below `2^32`; every C operation that
  can leave that range is followed by an explicit `% 2^32` (`u32`).
* `int32_t`, `int16_t`, `int8_t` values are integers; the casts `(int32_t)x`,
  `(int16_t)x`, `(int8_t)x` are `i32`, `i16`, `i8` (two's complement), and the
  conversion of an `int` back to `uint32_t` is `ofInt`.
* `>>` on a signed left operand is the arithmetic shift.
* The source applies `<<` and `>>` to the shift count as it stands, with no
  mask and no check; the shift is by the low five bits of the count (`shl32`,
  `shr32`, `sar32`), as the shift instructions of the target machine do for a
  count outside 0..31.
* The global arrays `registers` and `memory` are total functions on `Nat`;
  every register index the handlers use is a 5-bit field. The source indexes
  `memory` with no bounds check: an index at or above `MEMORY_SIZE` reads or
  writes the function at that index, and such an access is taken to return
  and not to touch `registers` or `programCounter`.
* The handlers and `execute` return an `Option`, the type of the step that
  `runLoop` takes; each of them returns `some` for every state and word
  (`execute_defined`). The one behaviour without a result is that of the
  Task3 `main` on an image larger than `MEMORY_SIZE`, which reads from the
  file after `loadInstructions` has closed it.
* `printf` output is not part of the state.
-/

namespace RiscVSimulator

/-! ## Machine integers -/

/-- Wrap a natural number to `uint32_t`. -/
def u32 (x : Nat) : Nat := x % 4294967296

/-- The cast `(int32_t)x` of a 32-bit pattern. -/
def i32 (x : Nat) : Int :=
  if x % 4294967296 < 2147483648 then ((x % 4294967296 : Nat) : Int)
  else ((x % 4294967296 : Nat) : Int) - 4294967296

/-- The cast `(int16_t)x`. -/
def i16 (x : Nat) : Int :=
  if x % 65536 < 32768 then ((x % 65536 : Nat) : Int) else ((x % 65536 : Nat) : Int) - 65536

/-- The cast `(int8_t)x`. -/
def i8 (x : Nat) : Int :=
  if x % 256 < 128 then ((x % 256 : Nat) : Int) else ((x % 256 : Nat) : Int) - 256

/-- Conversion of a signed integer to `uint32_t`. -/
def ofInt (i : Int) : Nat := (i % 4294967296).toNat

/-- Subtraction of two `uint32_t` values. -/
def sub32 (x y : Nat) : Nat := (x + (4294967296 - y % 4294967296)) % 4294967296

/-- Left shift `x << n` of a `uint32_t`. The source applies `<<` to the count
as it stands; the shift is by the low five bits of the count (`n mod 32`). -/
def shl32 (x : Nat) (n : Int) : Nat := u32 (x <<< (n % 32).toNat)

/-- Logical right shift `x >> n` of a `uint32_t`, by the low five bits of the count. -/
def shr32 (x : Nat) (n : Int) : Nat := x >>> (n % 32).toNat

/-- Arithmetic right shift `x >> n` of an `int32_t`, by the low five bits of
the count, converted to `uint32_t`. -/
def sar32 (x : Int) (n : Int) : Nat := ofInt (x >>> (n % 32).toNat)

/-! ## Registers, memory, machine state (identical in both files) -/

def NUM_REGISTERS : Nat := 32

def MEMORY_SIZE : Nat := 1024 * 1024

/-- The C struct `Register`: a `uint32_t value` and an `int locked`. -/
structure Register where
  value : Nat
  locked : Int

/-- The globals of the program: `registers`, `programCounter`, `memory`. -/
structure Machine where
  registers : Nat → Register
  programCounter : Nat
  memory : Nat → Nat

/-- The function `initializeRegisters`: clear all 32 registers, then lock x0. -/
def initializeRegisters (registers : Nat → Register) : Nat → Register :=
  let cleared : Nat → Register := fun i =>
    if i < NUM_REGISTERS then { value := 0, locked := 0 } else registers i
  fun i => if i = 0 then { value := (cleared 0).value, locked := 1 } else cleared i

/-- The function `readRegister`. -/
def readRegister (registers : Nat → Register) (regNum : Nat) : Nat :=
  (registers regNum).value

/-- The function `writeRegister`: the write is dropped when the register is locked. -/
def writeRegister (registers : Nat → Register) (regNum : Nat) (value : Nat) : Nat → Register :=
  if (registers regNum).locked = 0 then
    fun i => if i = regNum then { value := value, locked := (registers regNum).locked }
             else registers i
  else registers

/-- The direct assignment `registers[rd].value = value` of Task2. -/
def assignValue (registers : Nat → Register) (rd : Nat) (value : Nat) : Nat → Register :=
  fun i => if i = rd then { value := value, locked := (registers rd).locked } else registers i

/-- Read of `memory[index]`; the source checks no bound. -/
def loadByte (memory : Nat → Nat) (index : Nat) : Nat := memory index

/-- Assignment `memory[index] = byte` of a `uint8_t`; the source checks no bound. -/
def storeByte (memory : Nat → Nat) (index : Nat) (byte : Nat) : Nat → Nat :=
  fun j => if j = index then byte % 256 else memory j

/-- The state at the first fetch: `initializeRegisters` has run, the program
counter is 0, and `memory` holds whatever `loadInstructions` left there. -/
def initialMachine (memory : Nat → Nat) : Machine :=
  { registers := initializeRegisters (fun _ => { value := 0, locked := 0 }),
    programCounter := 0,
    memory := memory }

/-! ## Instruction fields -/

/-- Bits 6:0. -/
def opcodeOf (instruction : Nat) : Nat := instruction &&& 0x7F

/-- Bits 11:7. -/
def rdOf (instruction : Nat) : Nat := (instruction >>> 7) &&& 0x1F

/-- Bits 14:12. -/
def funct3Of (instruction : Nat) : Nat := (instruction >>> 12) &&& 0x7

/-- Bits 19:15. -/
def rs1Of (instruction : Nat) : Nat := (instruction >>> 15) &&& 0x1F

/-- Bits 24:20. -/
def rs2Of (instruction : Nat) : Nat := (instruction >>> 20) &&& 0x1F

/-- Bits 31:25. -/
def funct7Of (instruction : Nat) : Nat := (instruction >>> 25) &&& 0x7F

/-- The immediate of `processIType`, `processLType` and `processJALRType`:
`(int32_t)(((instruction >> 31) ? 0xFFFFF000 : 0) | ((instruction >> 20) & 0xFFF))`. -/
def immI (instruction : Nat) : Int :=
  i32 ((if instruction >>> 31 ≠ 0 then 0xFFFFF000 else 0) ||| ((instruction >>> 20) &&& 0xFFF))

/-- The immediate of `processSType`: `(imm2 << 5) | imm1`, a `uint32_t`. -/
def immS (instruction : Nat) : Nat :=
  let imm1 := (instruction >>> 7) &&& 0x1F
  let imm2 := (instruction >>> 25) &&& 0x7F
  u32 ((imm2 <<< 5) ||| imm1)

/-- The immediate of `processUType` before the shift: `(instruction >> 12) & 0xFFFFF`. -/
def immU (instruction : Nat) : Nat := (instruction >>> 12) &&& 0xFFFFF

/-- The displacement of `processBType`: the flat field, patched when `imm2 & 0x40`. -/
def immB (instruction : Nat) : Int :=
  let imm1 := (instruction >>> 7) &&& 0x1F
  let imm2 := (instruction >>> 25) &&& 0x7F
  let imm : Int := i32 (u32 ((imm2 <<< 5) ||| imm1))
  if imm2 &&& 0x40 ≠ 0 then i32 (ofInt imm ||| 0xFFFFFFC0) - 1 else imm

/-- The displacement of `processJALType`. -/
def immJ (instruction : Nat) : Int :=
  let imm20 := (instruction >>> 31) &&& 0x1
  let imm10to1 := (instruction >>> 21) &&& 0x3FF
  let imm11 := (instruction >>> 20) &&& 0x1
  let imm19to12 := (instruction >>> 12) &&& 0xFF
  i32 (u32 ((imm20 <<< 20) ||| (imm19to12 <<< 12) ||| (imm11 <<< 11) ||| (imm10to1 <<< 1)))

/-- The statement `programCounter += 4`. -/
def advance (m : Machine) (registers : Nat → Register) : Machine :=
  { registers := registers, programCounter := u32 (m.programCounter + 4), memory := m.memory }

/-- How one pass through the body of the `while (1)` loop ends. -/
inductive Outcome where
  | running (m : Machine)
  | finished (m : Machine)

/-! ## Task3 handlers (`src/Task3/RiscVSimulator.c`) -/

namespace Task3

/-- The function `processRType`. -/
def processRType (m : Machine) (instruction : Nat) : Option Machine :=
  let rd := rdOf instruction
  let funct3 := funct3Of instruction
  let rs1 := rs1Of instruction
  let rs2 := rs2Of instruction
  let funct7 := funct7Of instruction
  let a := readRegister m.registers rs1
  let b := readRegister m.registers rs2
  let registers : Nat → Register :=
    match funct3 with
    | 0 =>
      if funct7 = 0x00 then writeRegister m.registers rd (u32 (a + b))
      else if funct7 = 0x20 then writeRegister m.registers rd (sub32 a b)
      else m.registers
    | 1 => writeRegister m.registers rd (shl32 a (b : Int))
    | 2 => writeRegister m.registers rd (if i32 a < i32 b then 1 else 0)
    | 3 => writeRegister m.registers rd (if a < b then 1 else 0)
    | 4 => writeRegister m.registers rd (a ^^^ b)
    | 5 =>
      if funct7 = 0x00 then writeRegister m.registers rd (shr32 a (b : Int))
      else if funct7 = 0x20 then writeRegister m.registers rd (sar32 (i32 a) (b : Int))
      else m.registers
    | 6 => writeRegister m.registers rd (a ||| b)
    | 7 => writeRegister m.registers rd (a &&& b)
    | _ => m.registers
  some (advance m registers)

/-- The function `processIType`. -/
def processIType (m : Machine) (instruction : Nat) : Option Machine :=
  let rd := rdOf instruction
  let funct3 := funct3Of instruction
  let rs1 := rs1Of instruction
  let imm := immI instruction
  let a := readRegister m.registers rs1
  let registers : Nat → Register :=
    match funct3 with
    | 0 => writeRegister m.registers rd (u32 (a + ofInt imm))
    | 1 => writeRegister m.registers rd (shl32 a imm)
    | 2 => writeRegister m.registers rd (if i32 a < imm then 1 else 0)
    | 3 => writeRegister m.registers rd (if a < ofInt imm then 1 else 0)
    | 4 => writeRegister m.registers rd (a ^^^ ofInt imm)
    | 5 =>
      if instruction &&& 0x40000000 = 0 then writeRegister m.registers rd (shr32 a imm)
      else writeRegister m.registers rd (sar32 (i32 a) imm)
    | 6 => writeRegister m.registers rd (a ||| ofInt imm)
    | 7 => writeRegister m.registers rd (a &&& ofInt imm)
    | _ => m.registers
  some (advance m registers)

/-- The function `processSType`. -/
def processSType (m : Machine) (instruction : Nat) : Option Machine :=
  let funct3 := funct3Of instruction
  let rs1 := rs1Of instruction
  let rs2 := rs2Of instruction
  let imm := immS instruction
  let address := u32 ((m.registers rs1).value + imm)
  let v := (m.registers rs2).value
  let memory : Nat → Nat :=
    match funct3 with
    | 0 => storeByte m.memory address (v &&& 0xFF)
    | 1 =>
      let m1 := storeByte m.memory address (v &&& 0xFF)
      storeByte m1 (u32 (address + 1)) ((v >>> 8) &&& 0xFF)
    | 2 =>
      let m1 := storeByte m.memory address (v &&& 0xFF)
      let m2 := storeByte m1 (u32 (address + 1)) ((v >>> 8) &&& 0xFF)
      let m3 := storeByte m2 (u32 (address + 2)) ((v >>> 16) &&& 0xFF)
      storeByte m3 (u32 (address + 3)) ((v >>> 24) &&& 0xFF)
    | _ => m.memory
  some { registers := m.registers, programCounter := u32 (m.programCounter + 4),
         memory := memory }

/-- The function `processLType`. -/
def processLType (m : Machine) (instruction : Nat) : Option Machine :=
  let rd := rdOf instruction
  let funct3 := funct3Of instruction
  let rs1 := rs1Of instruction
  let imm := immI instruction
  let address := u32 ((m.registers rs1).value + ofInt imm)
  let registers : Nat → Register :=
    match funct3 with
    | 0 =>
      let b0 := loadByte m.memory address
      writeRegister m.registers rd (ofInt (i8 b0))
    | 1 =>
      let b0 := loadByte m.memory address
      let b1 := loadByte m.memory (u32 (address + 1))
      writeRegister m.registers rd (ofInt (i16 (b0 ||| (b1 <<< 8))))
    | 2 =>
      let b0 := loadByte m.memory address
      let b1 := loadByte m.memory (u32 (address + 1))
      let b2 := loadByte m.memory (u32 (address + 2))
      let b3 := loadByte m.memory (u32 (address + 3))
      writeRegister m.registers rd
        (ofInt (i32 (b0 ||| (b1 <<< 8) ||| (b2 <<< 16) ||| (b3 <<< 24))))
    | 4 =>
      let b0 := loadByte m.memory address
      writeRegister m.registers rd (u32 b0)
    | 5 =>
      let b0 := loadByte m.memory address
      let b1 := loadByte m.memory (u32 (address + 1))
      writeRegister m.registers rd (ofInt (i32 (b0 ||| (b1 <<< 8))))
    | _ => m.registers
  some (advance m registers)

/-- The function `processUType`. -/
def processUType (m : Machine) (instruction : Nat) : Option Machine :=
  match instruction &&& 0x7F with
  | 0x17 =>
    let rd := rdOf instruction
    let imm := immU instruction
    some (advance m (writeRegister m.registers rd (u32 (m.programCounter + u32 (imm <<< 12)))))
  | 0x37 =>
    let rd := rdOf instruction
    let imm := immU instruction
    some (advance m (writeRegister m.registers rd (u32 (imm <<< 12))))
  | _ => some (advance m m.registers)

/-- The comparison selected by `funct3` in `processBType`; `none` for the two
values of `funct3` that have no `case`. -/
def branchCondition (funct3 : Nat) (a b : Nat) : Option Bool :=
  match funct3 with
  | 0 => some (decide (a = b))
  | 1 => some (decide (a ≠ b))
  | 4 => some (decide (i32 a < i32 b))
  | 5 => some (decide (i32 a ≥ i32 b))
  | 6 => some (decide (a < b))
  | 7 => some (decide (a ≥ b))
  | _ => none

/-- The function `processBType`. -/
def processBType (m : Machine) (instruction : Nat) : Option Machine :=
  let funct3 := funct3Of instruction
  let rs1 := rs1Of instruction
  let rs2 := rs2Of instruction
  let imm := immB instruction
  match branchCondition funct3 (m.registers rs1).value (m.registers rs2).value with
  | some true =>
    some { registers := m.registers, programCounter := u32 (m.programCounter + ofInt imm),
           memory := m.memory }
  | some false => some (advance m m.registers)
  | none => some m

/-- The function `processJALType`. -/
def processJALType (m : Machine) (instruction : Nat) : Option Machine :=
  let rd := rdOf instruction
  let imm := immJ instruction
  some { registers := writeRegister m.registers rd (u32 (m.programCounter + 4)),
         programCounter := u32 (m.programCounter + ofInt imm),
         memory := m.memory }

/-- The function `processJALRType`. -/
def processJALRType (m : Machine) (instruction : Nat) : Option Machine :=
  let rd := rdOf instruction
  let rs1 := rs1Of instruction
  let imm := immI instruction
  let jumpAddress := u32 ((m.registers rs1).value + ofInt imm) &&& 0xFFFFFFFE
  some { registers := writeRegister m.registers rd (u32 (m.programCounter + 4)),
         programCounter := jumpAddress,
         memory := m.memory }

/-- The `switch (opcode)` of `main`: one fetched word is decoded and executed.
`finished` is the call of `finishProgram`, which exits the process. -/
def execute (m : Machine) (instruction : Nat) : Option Outcome :=
  match instruction &&& 0x7F with
  | 0x33 => (processRType m instruction).map Outcome.running
  | 0x13 => (processIType m instruction).map Outcome.running
  | 0x23 => (processSType m instruction).map Outcome.running
  | 0x37 => (processUType m instruction).map Outcome.running
  | 0x73 => some (Outcome.finished m)
  | 0x17 => (processUType m instruction).map Outcome.running
  | 0x63 => (processBType m instruction).map Outcome.running
  | 0x6F => (processJALType m instruction).map Outcome.running
  | 0x67 => (processJALRType m instruction).map Outcome.running
  | 0x03 => (processLType m instruction).map Outcome.running
  | _ => some (Outcome.running m)

end Task3

/-! ## Task2 handlers (`src/Task2/RiscVSimulator.c`)

Task2 declares `writeRegister` too, but its handlers assign
`registers[rd].value` directly. It has no `memory` array and no load opcode;
the `memory` component of the state is carried along untouched. -/

namespace Task2

/-- The function `processRType` of Task2. -/
def processRType (m : Machine) (instruction : Nat) : Option Machine :=
  let rd := rdOf instruction
  let funct3 := funct3Of instruction
  let rs1 := rs1Of instruction
  let rs2 := rs2Of instruction
  let funct7 := funct7Of instruction
  let a := (m.registers rs1).value
  let b := (m.registers rs2).value
  let registers : Nat → Register :=
    match funct3 with
    | 0 =>
      if funct7 = 0x00 then assignValue m.registers rd (u32 (a + b))
      else if funct7 = 0x20 then assignValue m.registers rd (sub32 a b)
      else m.registers
    | 1 => assignValue m.registers rd (shl32 a (b : Int))
    | 2 => assignValue m.registers rd (if i32 a < i32 b then 1 else 0)
    | 3 => assignValue m.registers rd (if a < b then 1 else 0)
    | 4 => assignValue m.registers rd (a ^^^ b)
    | 5 =>
      if funct7 = 0x00 then assignValue m.registers rd (shr32 a (b : Int))
      else if funct7 = 0x20 then assignValue m.registers rd (sar32 (i32 a) (b : Int))
      else m.registers
    | 6 => assignValue m.registers rd (a ||| b)
    | 7 => assignValue m.registers rd (a &&& b)
    | _ => m.registers
  some (advance m registers)

/-- The function `processIType` of Task2. -/
def processIType (m : Machine) (instruction : Nat) : Option Machine :=
  let rd := rdOf instruction
  let funct3 := funct3Of instruction
  let rs1 := rs1Of instruction
  let imm := immI instruction
  let a := (m.registers rs1).value
  let registers : Nat → Register :=
    match funct3 with
    | 0 => assignValue m.registers rd (u32 (a + ofInt imm))
    | 1 => assignValue m.registers rd (shl32 a imm)
    | 2 => assignValue m.registers rd (if i32 a < imm then 1 else 0)
    | 3 => assignValue m.registers rd (if a < ofInt imm then 1 else 0)
    | 4 => assignValue m.registers rd (a ^^^ ofInt imm)
    | 5 =>
      if instruction &&& 0x40000000 = 0 then assignValue m.registers rd (shr32 a imm)
      else assignValue m.registers rd (sar32 (i32 a) imm)
    | 6 => assignValue m.registers rd (a ||| ofInt imm)
    | 7 => assignValue m.registers rd (a &&& ofInt imm)
    | _ => m.registers
  some (advance m registers)

/-- The function `processSType` of Task2: the fields are decoded and nothing is stored. -/
def processSType (m : Machine) (_instruction : Nat) : Option Machine :=
  some (advance m m.registers)

/-- The function `processUType` of Task2. -/
def processUType (m : Machine) (instruction : Nat) : Option Machine :=
  match instruction &&& 0x7F with
  | 0x17 =>
    let rd := rdOf instruction
    let imm := immU instruction
    some (advance m (assignValue m.registers rd (u32 (m.programCounter + u32 (imm <<< 12)))))
  | 0x37 =>
    let rd := rdOf instruction
    let imm := immU instruction
    some (advance m (assignValue m.registers rd (u32 (imm <<< 12))))
  | _ => some (advance m m.registers)

/-- The function `processBType` of Task2 (the same text as in Task3). -/
def processBType (m : Machine) (instruction : Nat) : Option Machine :=
  let funct3 := funct3Of instruction
  let rs1 := rs1Of instruction
  let rs2 := rs2Of instruction
  let imm := immB instruction
  match Task3.branchCondition funct3 (m.registers rs1).value (m.registers rs2).value with
  | some true =>
    some { registers := m.registers, programCounter := u32 (m.programCounter + ofInt imm),
           memory := m.memory }
  | some false => some (advance m m.registers)
  | none => some m

/-- The function `processJALType` of Task2. -/
def processJALType (m : Machine) (instruction : Nat) : Option Machine :=
  let rd := rdOf instruction
  let imm := immJ instruction
  some { registers := assignValue m.registers rd (u32 (m.programCounter + 4)),
         programCounter := u32 (m.programCounter + ofInt imm),
         memory := m.memory }

/-- The function `processJALRType` of Task2. -/
def processJALRType (m : Machine) (instruction : Nat) : Option Machine :=
  let rd := rdOf instruction
  let rs1 := rs1Of instruction
  let imm := immI instruction
  let jumpAddress := u32 ((m.registers rs1).value + ofInt imm) &&& 0xFFFFFFFE
  some { registers := assignValue m.registers rd (u32 (m.programCounter + 4)),
         programCounter := jumpAddress,
         memory := m.memory }

/-- The `switch (opcode)` of the Task2 `main`; `finished` is its `return 0`. -/
def execute (m : Machine) (instruction : Nat) : Option Outcome :=
  match instruction &&& 0x7F with
  | 0x33 => (processRType m instruction).map Outcome.running
  | 0x13 => (processIType m instruction).map Outcome.running
  | 0x23 => (processSType m instruction).map Outcome.running
  | 0x37 => (processUType m instruction).map Outcome.running
  | 0x73 => some (Outcome.finished m)
  | 0x17 => (processUType m instruction).map Outcome.running
  | 0x63 => (processBType m instruction).map Outcome.running
  | 0x6F => (processJALType m instruction).map Outcome.running
  | 0x67 => (processJALRType m instruction).map Outcome.running
  | _ => some (Outcome.running m)

end Task2

/-! ## The loop of `main` (the same text in both files)

The program image is the sequence of bytes of the input file. The host is
little-endian, as `fread` into a `uint32_t` assumes. -/

/-- The byte at offset `i` of the program image. -/
def byteAt (image : List Nat) (i : Nat) : Nat := image.getD i 0 % 256

/-- The fetch at the top of the loop: `fseek(file, currentPC, SEEK_SET)` and
`fread` of one `uint32_t`; `none` when fewer than four bytes are left, which
is the `break`. -/
def fetch (image : List Nat) (pc : Nat) : Option Nat :=
  if pc + 4 ≤ image.length then
    some (byteAt image pc + 256 * byteAt image (pc + 1) + 65536 * byteAt image (pc + 2)
      + 16777216 * byteAt image (pc + 3))
  else none

/-- How a run of the `while (1)` loop ends: the program is over (`finishProgram`
in Task3, `return 0` in Task2) after `fetched` words were fetched, or the fuel
of the model is used up, or the C program has undefined behaviour (the
loop reads from a file that has been closed). -/
inductive RunResult where
  | done (m : Machine) (fetched : Nat)
  | outOfFuel
  | undefined

/-- The `while (1)` loop of `main`, for at most `fuel` passes; `k` counts the
words fetched so far. -/
def runLoop (execute : Machine → Nat → Option Outcome) (image : List Nat) :
    Nat → Machine → Nat → RunResult
  | 0, _, _ => RunResult.outOfFuel
  | fuel + 1, m, k =>
    match fetch image m.programCounter with
    | none => RunResult.done m k
    | some w =>
      match execute m w with
      | none => RunResult.undefined
      | some (Outcome.finished m1) => RunResult.done m1 (k + 1)
      | some (Outcome.running m1) => runLoop execute image fuel m1 (k + 1)

/-- The function `loadInstructions` of Task3: the image is copied to the start
of `memory`; an image larger than `MEMORY_SIZE` is not copied and the file is
closed, after which the loop of `main` reads from a closed file (`none`). -/
def Task3.loadInstructions (image : List Nat) (memory : Nat → Nat) : Option (Nat → Nat) :=
  if image.length > MEMORY_SIZE then none
  else some (fun j => if j < image.length then byteAt image j else memory j)

/-- The function `main` of Task3 on a program image. -/
def Task3.main (image : List Nat) (fuel : Nat) : RunResult :=
  match Task3.loadInstructions image (fun _ => 0) with
  | none => RunResult.undefined
  | some memory => runLoop Task3.execute image fuel (initialMachine memory) 0

/-- The function `main` of Task2 on a program image. -/
def Task2.main (image : List Nat) (fuel : Nat) : RunResult :=
  runLoop Task2.execute image fuel (initialMachine (fun _ => 0)) 0

/-- One pass through the loop body of Task3: fetch, then the `switch`. -/
def Task3.step (image : List Nat) (m : Machine) : Option Outcome :=
  match fetch image m.programCounter with
  | none => some (Outcome.finished m)
  | some w => Task3.execute m w

/-- The outcome of `n` passes through the loop body of Task3, stopping early
when the program is over. -/
def Task3.stepN (image : List Nat) : Nat → Machine → Option Outcome
  | 0, m => some (Outcome.running m)
  | n + 1, m =>
    match Task3.step image m with
    | some (Outcome.running m1) => Task3.stepN image n m1
    | r => r

/-! ## Vocabulary of the theorems -/

/-- The lock configuration set up by `initializeRegisters`, with x0 holding 0. -/
def LockInvariant (r : Nat → Register) : Prop :=
  (r 0).value = 0 ∧ (r 0).locked = 1 ∧ ∀ i, 1 ≤ i → i ≤ 31 → (r i).locked = 0

/-- A register file with all values 0 and all flags 0 (the zero-initialised global). -/
def zeroRegisters : Nat → Register := fun _ => { value := 0, locked := 0 }

/-- A machine in the initial state with an all-zero memory. -/
def machine0 : Machine := initialMachine (fun _ => 0)

/-- A register file with the lock flags of `initializeRegisters`, x0 = 0, and
register `i` (1 ≤ i) holding the `i`-th entry of `vals` (0 when there is none). -/
def regsOf (vals : List Nat) : Nat → Register := fun i =>
  { value := if i = 0 then 0 else vals.getD i 0, locked := if i = 0 then 1 else 0 }

/-- A state with x1 = 0xFFFFFFFF, x2 = 2, program counter 0x10, memory all zero. -/
def machineA : Machine :=
  { registers := regsOf [0, 0xFFFFFFFF, 2], programCounter := 16, memory := fun _ => 0 }

/-- A state with x1 = 0xFFFFFFFF, x2 = 1. -/
def machineB : Machine :=
  { registers := regsOf [0, 0xFFFFFFFF, 1], programCounter := 0, memory := fun _ => 0 }

/-- A state with x1 = 0xDEADBEEF, x2 = 0x100. -/
def machineC : Machine :=
  { registers := regsOf [0, 0xDEADBEEF, 0x100], programCounter := 0, memory := fun _ => 0 }

/-- A state whose memory holds 0xFF at address 8 and 0x80 at address 9. -/
def machineD : Machine :=
  { registers := regsOf [], programCounter := 0,
    memory := fun j => if j = 8 then 0xFF else if j = 9 then 0x80 else 0 }

/-- A state with x1 = 0x80000001, x2 = 32, x3 = 4. -/
def machineE : Machine :=
  { registers := regsOf [0, 0x80000001, 32, 4], programCounter := 0, memory := fun _ => 0 }

/-- A state with x1 = 0x100000, the first index past the end of `memory`. -/
def machineG : Machine :=
  { registers := regsOf [0, 0x100000], programCounter := 0, memory := fun _ => 0 }

/-- A state with all registers 0 and program counter 100. -/
def machineF : Machine :=
  { registers := regsOf [], programCounter := 100, memory := fun _ => 0 }

/-- A four-byte image holding the word 0xFFFFFFF3 (opcode 0x73, all other bits set). -/
def ecallImage : List Nat := [0xF3, 0xFF, 0xFF, 0xFF]

/-- A four-byte image holding the word 0 (opcode 0x00, which has no `case`). -/
def zeroImage : List Nat := [0, 0, 0, 0]

/-- The canonical RV32I branch displacement, written from its definition:
imm[12] = bit 31, imm[11] = bit 7, imm[10:5] = bits 30:25, imm[4:1] = bits 11:8,
imm[0] = 0, as a 13-bit two's-complement value. It is the reference the
displacement of `processBType` is compared with; the program does not compute it. -/
def canonicalImmB (w : Nat) : Int :=
  ((2 * (w / 256 % 16) + 32 * (w / 33554432 % 64) + 2048 * (w / 128 % 2) : Nat) : Int)
    - 4096 * ((w / 2147483648 % 2 : Nat) : Int)

/-- The state that an outcome of the loop body carries. -/
def Outcome.machine : Outcome → Machine
  | Outcome.running m => m
  | Outcome.finished m => m

/-- The state of Task3 at the first fetch, for an image that fits in `memory`:
`initializeRegisters` and `loadInstructions` have run. -/
def loadedMachine (image : List Nat) : Machine :=
  initialMachine (fun j => if j < image.length then byteAt image j else 0)

/-- Every word at offsets 0, 4, 8, ... below `4 * (length / 4)` has opcode
0x33, 0x13, 0x37 or 0x17. -/
@[reducible] def StraightLine (image : List Nat) : Prop :=
  ∀ k, k < image.length / 4 → ∀ w ∈ fetch image (4 * k),
    w &&& 0x7F = 0x33 ∨ w &&& 0x7F = 0x13 ∨ w &&& 0x7F = 0x37 ∨ w &&& 0x7F = 0x17

/-- A ten-byte image: `addi x1,x0,7; add x1,x1,x1` and two trailing bytes. -/
def straightImage : List Nat := [0x93, 0x00, 0x70, 0x00, 0xB3, 0x80, 0x10, 0x00, 0x13, 0x00]

/-- An eight-byte image: `srai x3,x1,1; sll x3,x1,x2`. -/
def shiftImage : List Nat := [0x93, 0xD1, 0x10, 0x40, 0xB3, 0x91, 0x20, 0x00]

/-- An image of 1048580 bytes, four more than `MEMORY_SIZE`, all 0x33: every
word of it is 0x33333333 (`sltu x6, x6, x19`). -/
def oversizeImage : List Nat := List.replicate 1048580 0x33

/-- The register file after a handler is the one before it, or `writeRegister`
applied to it at index `n`. -/
def RegStepAt (n : Nat) (r r' : Nat → Register) : Prop :=
  r' = r ∨ ∃ v, r' = writeRegister r n v

/-- The register file with every entry outside the array of `NUM_REGISTERS`
registers replaced by a fixed value. -/
def clipRegisters (r : Nat → Register) : Nat → Register :=
  fun i => if i < NUM_REGISTERS then r i else { value := 0, locked := 0 }

/-- The machine with its register file clipped to the array. -/
def clipMachine (m : Machine) : Machine :=
  { registers := clipRegisters m.registers, programCounter := m.programCounter,
    memory := m.memory }

/-- The outcome with its register file clipped to the array. -/
def clipOutcome : Outcome → Outcome
  | Outcome.running m => Outcome.running (clipMachine m)
  | Outcome.finished m => Outcome.finished (clipMachine m)

/-! ## Basic lemmas -/

theorem ofInt_i32 (x : Nat) : ofInt (i32 x) = u32 x := by
  unfold ofInt i32 u32
  split <;> omega

theorem writeRegister_locked (r : Nat → Register) (n v j : Nat) :
    (writeRegister r n v j).locked = (r j).locked := by
  unfold writeRegister
  split
  · by_cases h : j = n
    · simp [h]
    · simp [h]
  · rfl

theorem writeRegister_other (r : Nat → Register) (n v j : Nat) (h : j ≠ n) :
    writeRegister r n v j = r j := by
  unfold writeRegister
  split
  · simp [h]
  · rfl

theorem writeRegister_same (r : Nat → Register) (n v : Nat) (h : (r n).locked = 0) :
    (writeRegister r n v n).value = v := by
  simp [writeRegister, h]

theorem writeRegister_dropped (r : Nat → Register) (n v : Nat) (h : (r n).locked ≠ 0) :
    writeRegister r n v = r := by
  simp [writeRegister, h]

/-! ## Every Task3 handler changes the register file by at most one `writeRegister` -/

theorem processSType_regs (m m' : Machine) (w : Nat) (h : Task3.processSType m w = some m') :
    m'.registers = m.registers := by
  unfold Task3.processSType at h
  simp only [Option.some.injEq] at h
  subst h
  rfl

theorem processBType_regs (m m' : Machine) (w : Nat) (h : Task3.processBType m w = some m') :
    m'.registers = m.registers := by
  unfold Task3.processBType at h
  dsimp only at h
  split at h
  all_goals simp only [Option.some.injEq] at h
  all_goals subst h
  all_goals rfl

theorem lockInvariant_initial (r : Nat → Register) : LockInvariant (initializeRegisters r) := by
  refine ⟨by simp [initializeRegisters, NUM_REGISTERS], by simp [initializeRegisters], ?_⟩
  intro i h1 h2
  have h0 : i ≠ 0 := by omega
  have h3 : i < 32 := by omega
  simp [initializeRegisters, NUM_REGISTERS, h0, h3]

theorem processUType_defined (m : Machine) (w : Nat) :
    ∃ m', Task3.processUType m w = some m' := by
  unfold Task3.processUType
  split <;> exact ⟨_, rfl⟩

theorem processBType_defined (m : Machine) (w : Nat) :
    ∃ m', Task3.processBType m w = some m' := by
  unfold Task3.processBType
  dsimp only
  split <;> exact ⟨_, rfl⟩

/-- Every step of the Task3 engine is defined. -/
theorem execute_defined (m : Machine) (w : Nat) : ∃ o, Task3.execute m w = some o := by
  obtain ⟨mu, hu⟩ := processUType_defined m w
  obtain ⟨mb, hb⟩ := processBType_defined m w
  unfold Task3.execute
  split
  case h_4 => exact ⟨_, by rw [hu]; rfl⟩
  case h_6 => exact ⟨_, by rw [hu]; rfl⟩
  case h_7 => exact ⟨_, by rw [hb]; rfl⟩
  all_goals exact ⟨_, rfl⟩

theorem lockInvariant_regsOf (vals : List Nat) : LockInvariant (regsOf vals) := by
  refine ⟨by simp [regsOf], by simp [regsOf], ?_⟩
  intro i h1 _
  have h0 : i ≠ 0 := by omega
  simp [regsOf, h0]

theorem rdOf_le (w : Nat) : rdOf w ≤ 31 := Nat.and_le_right

theorem unlocked_of_invariant (r : Nat → Register) (h : LockInvariant r) (w : Nat)
    (hrd : rdOf w ≠ 0) : (r (rdOf w)).locked = 0 :=
  h.2.2 (rdOf w) (Nat.pos_of_ne_zero hrd) (rdOf_le w)

theorem and_mask_shift (x k n : Nat) :
    x &&& ((2 ^ n - 1) <<< k) = ((x >>> k) &&& (2 ^ n - 1)) <<< k := by
  apply Nat.eq_of_testBit_eq
  intro i
  simp only [Nat.testBit_and, Nat.testBit_shiftLeft, Nat.testBit_shiftRight]
  by_cases h : k ≤ i
  · have : k + (i - k) = i := by omega
    simp [h, this]
  · simp [h]

theorem u32_add_ofInt (x : Nat) (i : Int) :
    u32 (x + ofInt i) = (((x : Int) + i) % 4294967296).toNat := by
  unfold u32 ofInt
  omega

theorem or_shift8 (b0 b1 : Nat) (h0 : b0 < 256) : b0 ||| (b1 <<< 8) = b0 + 256 * b1 := by
  have h := Nat.mul_add_lt_is_or (i := 8) (b := b0) (by simpa using h0) b1
  rw [Nat.lor_comm, Nat.shiftLeft_eq, Nat.mul_comm, ← h]
  omega

theorem word_of_bytes (b0 b1 b2 b3 : Nat) (h0 : b0 < 256) (h1 : b1 < 256) (h2 : b2 < 256) :
    b0 ||| (b1 <<< 8) ||| (b2 <<< 16) ||| (b3 <<< 24) =
      b0 + 256 * b1 + 65536 * b2 + 16777216 * b3 := by
  rw [or_shift8 b0 b1 h0]
  have h16 := Nat.mul_add_lt_is_or (i := 16) (b := b0 + 256 * b1) (by norm_num; omega) b2
  have h24 := Nat.mul_add_lt_is_or (i := 24) (b := 2 ^ 16 * b2 + (b0 + 256 * b1))
    (by norm_num; omega) b3
  rw [Nat.lor_comm (b0 + 256 * b1), Nat.shiftLeft_eq, Nat.mul_comm b2, ← h16,
    Nat.lor_comm, Nat.shiftLeft_eq, Nat.mul_comm b3, ← h24]
  norm_num
  omega

theorem and_255 (x : Nat) : x &&& 0xFF = x % 256 := Nat.and_pow_two_sub_one_eq_mod x 8

theorem word_bytes (W : Nat) (hW : W < 4294967296) :
    (W &&& 0xFF) % 256 ||| ((((W >>> 8) &&& 0xFF) % 256) <<< 8) |||
      ((((W >>> 16) &&& 0xFF) % 256) <<< 16) ||| ((((W >>> 24) &&& 0xFF) % 256) <<< 24) = W := by
  rw [word_of_bytes _ _ _ _ (Nat.mod_lt _ (by decide)) (Nat.mod_lt _ (by decide))
    (Nat.mod_lt _ (by decide))]
  simp only [and_255, Nat.shiftRight_eq_div_pow]
  omega

theorem testBit_31 (x : Nat) (hx : x < 4294967296) :
    x.testBit 31 = decide (2147483648 ≤ x) := by
  rw [Nat.testBit_to_div_mod]
  congr 1
  apply propext
  constructor <;> intro h <;> omega

theorem i32_eq (x : Nat) (hx : x < 4294967296) :
    i32 x = (x : Int) - (if 2147483648 ≤ x then 4294967296 else 0) := by
  unfold i32
  split <;> split <;> omega

theorem upper_immediate (w : Nat) : u32 (immU w <<< 12) = w &&& 0xFFFFF000 := by
  have h := and_mask_shift w 12 20
  have e1 : (2 ^ 20 - 1) <<< 12 = 0xFFFFF000 := by decide
  have e2 : 2 ^ 20 - 1 = 0xFFFFF := by decide
  rw [e1, e2] at h
  have hle : w &&& 0xFFFFF000 ≤ 0xFFFFF000 := Nat.and_le_right
  unfold immU u32
  rw [← h]
  omega

theorem clear_bit0 (y : Nat) (hy : y < 4294967296) : y &&& 0xFFFFFFFE = 2 * (y / 2) := by
  have h := and_mask_shift y 1 31
  have e1 : (2 ^ 31 - 1) <<< 1 = 0xFFFFFFFE := by decide
  rw [e1, Nat.and_pow_two_sub_one_eq_mod, Nat.shiftRight_eq_div_pow, Nat.shiftLeft_eq] at h
  rw [h]
  omega

/-! ## The `switch (opcode)` of Task3, case by case -/

theorem execute_R (m : Machine) (w : Nat) (h : w &&& 0x7F = 0x33) :
    Task3.execute m w = (Task3.processRType m w).map Outcome.running := by
  simp only [Task3.execute, h]

theorem execute_L (m : Machine) (w : Nat) (h : w &&& 0x7F = 0x03) :
    Task3.execute m w = (Task3.processLType m w).map Outcome.running := by
  simp only [Task3.execute, h]

theorem execute_S (m : Machine) (w : Nat) (h : w &&& 0x7F = 0x23) :
    Task3.execute m w = (Task3.processSType m w).map Outcome.running := by
  simp only [Task3.execute, h]

theorem processRType_add (m : Machine) (w : Nat) (h3 : funct3Of w = 0) (h7 : funct7Of w = 0) :
    Task3.processRType m w = some (advance m (writeRegister m.registers (rdOf w)
      (u32 ((m.registers (rs1Of w)).value + (m.registers (rs2Of w)).value)))) := by
  simp [Task3.processRType, h3, h7, readRegister]

theorem processRType_sub (m : Machine) (w : Nat) (h3 : funct3Of w = 0) (h7 : funct7Of w = 0x20) :
    Task3.processRType m w = some (advance m (writeRegister m.registers (rdOf w)
      (sub32 (m.registers (rs1Of w)).value (m.registers (rs2Of w)).value))) := by
  simp [Task3.processRType, h3, h7, readRegister]

theorem load_address (m : Machine) (w A : Nat)
    (hA : (((m.registers (rs1Of w)).value : Int) + immI w) % 4294967296 = (A : Int)) :
    u32 ((m.registers (rs1Of w)).value + ofInt (immI w)) = A := by
  rw [u32_add_ofInt, hA]; rfl

/-! ## C1 -/

/-- C2: for every register file, index `i` and value `v`: if register `i` is
locked, `writeRegister i v` leaves the whole register file unchanged; if it is
not locked, afterwards `readRegister i = v`, every other register's value is
unchanged and every lock flag is unchanged. -/
theorem writeRegister_locked_or_written (r : Nat → Register) (i v : Nat) :
    ((r i).locked ≠ 0 → writeRegister r i v = r) ∧
    ((r i).locked = 0 →
      readRegister (writeRegister r i v) i = v ∧
      (∀ j, j ≠ i → (writeRegister r i v j).value = (r j).value) ∧
      (∀ j, (writeRegister r i v j).locked = (r j).locked)) := by
  refine ⟨writeRegister_dropped r i v, fun h => ⟨writeRegister_same r i v h, ?_, ?_⟩⟩
  · intro j hj
    rw [writeRegister_other r i v j hj]
  · intro j
    exact writeRegister_locked r i v j

theorem writeRegister_locked_or_written_witness :
    writeRegister (initializeRegisters zeroRegisters) 0 5 = initializeRegisters zeroRegisters ∧
    readRegister (writeRegister (initializeRegisters zeroRegisters) 1 5) 1 = 5 :=
  ⟨(writeRegister_locked_or_written (initializeRegisters zeroRegisters) 0 5).1 (by decide),
   ((writeRegister_locked_or_written (initializeRegisters zeroRegisters) 1 5).2 (by decide)).1⟩

/-! ## C3 -/

/-- C3 (the code at the failing inputs): in the Task2 engine, from the initial
state (x0 = 0), `addi x0, x0, 1` leaves 1 in x0, `lui x0, 1` leaves 4096 in x0,
and `jal x0, 8` leaves 4 in x0: the destination write to x0 is not dropped. -/
theorem task2_write_to_x0_not_dropped :
    (machine0.registers 0).value = 0 ∧
    rdOf 0x00100013 = 0 ∧ rdOf 0x00001037 = 0 ∧ rdOf 0x0080006F = 0 ∧
    (∃ m', Task2.execute machine0 0x00100013 = some (Outcome.running m') ∧
      (m'.registers 0).value = 1) ∧
    (∃ m', Task2.execute machine0 0x00001037 = some (Outcome.running m') ∧
      (m'.registers 0).value = 4096) ∧
    (∃ m', Task2.execute machine0 0x0080006F = some (Outcome.running m') ∧
      (m'.registers 0).value = 4) :=
  ⟨by decide, by decide, by decide, by decide,
   ⟨_, rfl, by decide⟩, ⟨_, rfl, by decide⟩, ⟨_, rfl, by decide⟩⟩

/-! ## C4 -/

/-- C4: in the Task3 engine, with `a` and `b` the values of rs1 and rs2 and
rd ≠ 0, executing ADD rd, rs1, rs2 sets rd to `(a + b) mod 2^32`; and if
rd ≠ rs2, executing SUB rd, rd, rs2 right after sets rd back to `a`. -/
theorem add_then_sub_restores (m : Machine) (wadd wsub : Nat)
    (hlock : LockInvariant m.registers)
    (hop : wadd &&& 0x7F = 0x33) (hf3 : funct3Of wadd = 0) (hf7 : funct7Of wadd = 0x00)
    (hrd : rdOf wadd ≠ 0)
    (ha : (m.registers (rs1Of wadd)).value < 4294967296) :
    ∃ m1, Task3.execute m wadd = some (Outcome.running m1) ∧
      (m1.registers (rdOf wadd)).value =
        ((m.registers (rs1Of wadd)).value + (m.registers (rs2Of wadd)).value) % 4294967296 ∧
      (wsub &&& 0x7F = 0x33 → funct3Of wsub = 0 → funct7Of wsub = 0x20 →
        rdOf wsub = rdOf wadd → rs1Of wsub = rdOf wadd → rs2Of wsub = rs2Of wadd →
        rdOf wadd ≠ rs2Of wadd →
        ∃ m2, Task3.execute m1 wsub = some (Outcome.running m2) ∧
          (m2.registers (rdOf wadd)).value = (m.registers (rs1Of wadd)).value) := by
  have hun := unlocked_of_invariant m.registers hlock wadd hrd
  refine ⟨_, by rw [execute_R m wadd hop, processRType_add m wadd hf3 hf7]; rfl, ?_, ?_⟩
  · simp only [advance]
    rw [writeRegister_same _ _ _ hun]; rfl
  · intro sop s3 s7 srd srs1 srs2 hne
    refine ⟨_, by rw [execute_R _ wsub sop, processRType_sub _ wsub s3 s7]; rfl, ?_⟩
    simp only [advance, srd, srs1, srs2]
    rw [writeRegister_same _ _ _ (by rw [writeRegister_locked]; exact hun)]
    rw [writeRegister_same _ _ _ hun, writeRegister_other _ _ _ _ (fun h => hne h.symm)]
    unfold sub32 u32
    omega

theorem add_then_sub_restores_witness :
    ∃ m1, Task3.execute machineA 0x002081B3 = some (Outcome.running m1) ∧
      (m1.registers 3).value = 1 ∧
      ∃ m2, Task3.execute m1 0x402181B3 = some (Outcome.running m2) ∧
        (m2.registers 3).value = 0xFFFFFFFF := by
  obtain ⟨m1, h1, h2, h3⟩ := add_then_sub_restores machineA 0x002081B3 0x402181B3
    (lockInvariant_regsOf _) (by decide) (by decide) (by decide) (by decide) (by decide)
  exact ⟨m1, h1, h2.trans (by decide),
    h3 (by decide) (by decide) (by decide) (by decide) (by decide) (by decide) (by decide)⟩

/-! ## C5 -/

/-- C5: in the Task3 engine, with `a`, `b` the 32-bit values of rs1, rs2 and
rd ≠ 0: SLT writes 1 iff `a < b` as two's-complement signed integers (else 0),
SLTU writes 1 iff `a < b` as unsigned integers (else 0); the two results are
equal when bit 31 of both is clear, and they differ exactly when exactly one
of `a`, `b` has bit 31 set. -/
theorem slt_sltu_signed_unsigned (m : Machine) (wslt wsltu a b : Nat)
    (hlock : LockInvariant m.registers)
    (hop1 : wslt &&& 0x7F = 0x33) (hf1 : funct3Of wslt = 2) (hrd1 : rdOf wslt ≠ 0)
    (hop2 : wsltu &&& 0x7F = 0x33) (hf2 : funct3Of wsltu = 3) (hrd2 : rdOf wsltu ≠ 0)
    (ha1 : (m.registers (rs1Of wslt)).value = a) (hb1 : (m.registers (rs2Of wslt)).value = b)
    (ha2 : (m.registers (rs1Of wsltu)).value = a) (hb2 : (m.registers (rs2Of wsltu)).value = b)
    (ha : a < 4294967296) (hb : b < 4294967296) :
    ∃ m1 m2, Task3.execute m wslt = some (Outcome.running m1) ∧
      Task3.execute m wsltu = some (Outcome.running m2) ∧
      (m1.registers (rdOf wslt)).value =
        (if (a : Int) - (if 2147483648 ≤ a then 4294967296 else 0) <
            (b : Int) - (if 2147483648 ≤ b then 4294967296 else 0) then 1 else 0) ∧
      (m2.registers (rdOf wsltu)).value = (if a < b then 1 else 0) ∧
      (a.testBit 31 = false → b.testBit 31 = false →
        (m1.registers (rdOf wslt)).value = (m2.registers (rdOf wsltu)).value) ∧
      ((m1.registers (rdOf wslt)).value ≠ (m2.registers (rdOf wsltu)).value ↔
        a.testBit 31 ≠ b.testBit 31) := by
  have hun1 := unlocked_of_invariant m.registers hlock wslt hrd1
  have hun2 := unlocked_of_invariant m.registers hlock wsltu hrd2
  have e1 : Task3.processRType m wslt = some (advance m (writeRegister m.registers (rdOf wslt)
      (if i32 a < i32 b then 1 else 0))) := by
    simp [Task3.processRType, hf1, readRegister, ha1, hb1]
  have e2 : Task3.processRType m wsltu = some (advance m (writeRegister m.registers (rdOf wsltu)
      (if a < b then 1 else 0))) := by
    simp [Task3.processRType, hf2, readRegister, ha2, hb2]
  refine ⟨_, _, by rw [execute_R m wslt hop1, e1]; rfl, by rw [execute_R m wsltu hop2, e2]; rfl,
    ?_⟩
  simp only [advance]
  rw [writeRegister_same _ _ _ hun1, writeRegister_same _ _ _ hun2, i32_eq a ha, i32_eq b hb,
    testBit_31 a ha, testBit_31 b hb]
  refine ⟨rfl, rfl, ?_, ?_⟩
  · intro h1 h2
    simp only [decide_eq_false_iff_not, not_le] at h1 h2
    simp only [if_neg (not_le.mpr h1), if_neg (not_le.mpr h2)]
    split <;> split <;> omega
  · by_cases h1 : 2147483648 ≤ a <;> by_cases h2 : 2147483648 ≤ b <;>
      simp only [h1, h2, if_true, if_false, decide_True, decide_False, ne_eq] <;>
      by_cases h3 : a < b <;> simp [h3] <;> omega

theorem slt_sltu_signed_unsigned_witness :
    ∃ m1 m2, Task3.execute machineB 0x0020A1B3 = some (Outcome.running m1) ∧
      Task3.execute machineB 0x0020B233 = some (Outcome.running m2) ∧
      (m1.registers 3).value = 1 ∧ (m2.registers 4).value = 0 := by
  obtain ⟨m1, m2, h1, h2, h3, h4, _, _⟩ :=
    slt_sltu_signed_unsigned machineB 0x0020A1B3 0x0020B233 0xFFFFFFFF 1
      (lockInvariant_regsOf _) (by decide) (by decide) (by decide) (by decide) (by decide)
      (by decide) (by decide) (by decide) (by decide) (by decide) (by decide) (by decide)
  exact ⟨m1, m2, h1, h2, h3.trans (by decide), h4.trans (by decide)⟩

/-! ## C6 -/

/-- C6: in the Task3 engine, for every 32-bit word `W` and address `A` with
`A + 3 < 1048576`: an SW whose effective address (rs1 value + S-immediate,
mod 2^32) is `A` and whose rs2 holds `W`, immediately followed by an LW with
rd ≠ 0 whose effective address (rs1 value + I-immediate, mod 2^32) is also
`A`, leaves rd = `W`. -/
theorem sw_lw_roundtrip (m : Machine) (wsw wlw A W : Nat)
    (hlock : LockInvariant m.registers)
    (hop1 : wsw &&& 0x7F = 0x23) (hf1 : funct3Of wsw = 2)
    (hop2 : wlw &&& 0x7F = 0x03) (hf2 : funct3Of wlw = 2) (hrd : rdOf wlw ≠ 0)
    (hA : A + 3 < 1048576)
    (hsw : ((m.registers (rs1Of wsw)).value + immS wsw) % 4294967296 = A)
    (hW : (m.registers (rs2Of wsw)).value = W) (hW32 : W < 4294967296)
    (hlw : (((m.registers (rs1Of wlw)).value : Int) + immI wlw) % 4294967296 = (A : Int)) :
    ∃ m1 m2, Task3.execute m wsw = some (Outcome.running m1) ∧
      Task3.execute m1 wlw = some (Outcome.running m2) ∧
      (m2.registers (rdOf wlw)).value = W := by
  have hun := unlocked_of_invariant m.registers hlock wlw hrd
  have hadr := load_address m wlw A hlw
  have hsw' : u32 ((m.registers (rs1Of wsw)).value + immS wsw) = A := hsw
  have a0 : A < 1048576 := by omega
  have a1 : A + 1 < 1048576 := by omega
  have a2 : A + 2 < 1048576 := by omega
  have u1 : u32 (A + 1) = A + 1 := by unfold u32; omega
  have u2 : u32 (A + 2) = A + 2 := by unfold u32; omega
  have u3 : u32 (A + 3) = A + 3 := by unfold u32; omega
  have e1 : Task3.processSType m wsw = some
      { registers := m.registers, programCounter := u32 (m.programCounter + 4),
        memory := fun j => if j = A + 3 then ((W >>> 24) &&& 0xFF) % 256
          else if j = A + 2 then ((W >>> 16) &&& 0xFF) % 256
          else if j = A + 1 then ((W >>> 8) &&& 0xFF) % 256
          else if j = A then (W &&& 0xFF) % 256 else m.memory j } := by
    simp [Task3.processSType, hf1, hsw', hW, u1, u2, u3]
    rfl
  have e2 : ∀ m1 : Machine, m1.registers = m.registers →
      m1.memory = (fun j => if j = A + 3 then ((W >>> 24) &&& 0xFF) % 256
          else if j = A + 2 then ((W >>> 16) &&& 0xFF) % 256
          else if j = A + 1 then ((W >>> 8) &&& 0xFF) % 256
          else if j = A then (W &&& 0xFF) % 256 else m.memory j) →
      Task3.processLType m1 wlw =
        some (advance m1 (writeRegister m1.registers (rdOf wlw) (ofInt (i32 W)))) := by
    intro m1 hr hm
    have hadr1 : u32 ((m1.registers (rs1Of wlw)).value + ofInt (immI wlw)) = A := by
      rw [hr]; exact hadr
    have hw := word_bytes W hW32
    simp [Task3.processLType, hf2, hadr1, loadByte, MEMORY_SIZE, a0, a1, a2, hA, u1, u2, u3, hm]
    simp at hw
    rw [hw]
  obtain ⟨m1, hm1, hr, hm⟩ : ∃ m1, Task3.processSType m wsw = some m1 ∧
      m1.registers = m.registers ∧
      m1.memory = (fun j => if j = A + 3 then ((W >>> 24) &&& 0xFF) % 256
          else if j = A + 2 then ((W >>> 16) &&& 0xFF) % 256
          else if j = A + 1 then ((W >>> 8) &&& 0xFF) % 256
          else if j = A then (W &&& 0xFF) % 256 else m.memory j) := ⟨_, e1, rfl, rfl⟩
  refine ⟨m1, advance m1 (writeRegister m1.registers (rdOf wlw) (ofInt (i32 W))),
    by rw [execute_S m wsw hop1, hm1]; rfl,
    by rw [execute_L m1 wlw hop2, e2 m1 hr hm]; rfl, ?_⟩
  simp only [advance]
  rw [hr, writeRegister_same _ _ _ hun, ofInt_i32]
  unfold u32; omega

theorem sw_lw_roundtrip_witness :
    ∃ m1 m2, Task3.execute machineC 0x00112423 = some (Outcome.running m1) ∧
      Task3.execute m1 0x00812183 = some (Outcome.running m2) ∧
      (m2.registers 3).value = 0xDEADBEEF :=
  sw_lw_roundtrip machineC 0x00112423 0x00812183 264 0xDEADBEEF
    (lockInvariant_regsOf _) (by decide) (by decide) (by decide) (by decide) (by decide)
    (by decide) (by decide) (by decide) (by decide) (by decide)

/-! ## C7 -/

/-- C7: in the Task3 engine, for a load with rd ≠ 0 whose effective address is
`A`, with `b0`, `b1` the bytes at `A`, `A + 1`: LB (address `A` in range) sets
rd to `b0` sign-extended from bit 7, LBU sets rd to `b0`, LH (addresses `A`,
`A + 1` in range) sets rd to the halfword `b0 + 256 * b1` sign-extended from
bit 15, and LHU sets rd to that halfword. -/
theorem load_sign_and_zero_extension (m : Machine) (w A b0 b1 : Nat)
    (hlock : LockInvariant m.registers)
    (hop : w &&& 0x7F = 0x03) (hrd : rdOf w ≠ 0)
    (hA : (((m.registers (rs1Of w)).value : Int) + immI w) % 4294967296 = (A : Int))
    (hm0 : m.memory A = b0) (hm1 : m.memory (A + 1) = b1)
    (h0 : b0 < 256) (h1 : b1 < 256) :
    (funct3Of w = 0 → A < 1048576 →
      ∃ m', Task3.execute m w = some (Outcome.running m') ∧
        (m'.registers (rdOf w)).value = (if b0 < 128 then b0 else 0xFFFFFF00 + b0)) ∧
    (funct3Of w = 4 → A < 1048576 →
      ∃ m', Task3.execute m w = some (Outcome.running m') ∧
        (m'.registers (rdOf w)).value = b0) ∧
    (funct3Of w = 1 → A + 1 < 1048576 →
      ∃ m', Task3.execute m w = some (Outcome.running m') ∧
        (m'.registers (rdOf w)).value =
          (if b0 + 256 * b1 < 32768 then b0 + 256 * b1 else 0xFFFF0000 + (b0 + 256 * b1))) ∧
    (funct3Of w = 5 → A + 1 < 1048576 →
      ∃ m', Task3.execute m w = some (Outcome.running m') ∧
        (m'.registers (rdOf w)).value = b0 + 256 * b1) := by
  have hun := unlocked_of_invariant m.registers hlock w hrd
  have hadr := load_address m w A hA
  have hA1 : ∀ _ : A + 1 < 1048576, u32 (A + 1) = A + 1 := by
    intro hlt; unfold u32; omega
  refine ⟨?_, ?_, ?_, ?_⟩
  · intro h3 hlt
    refine ⟨advance m (writeRegister m.registers (rdOf w) (ofInt (i8 b0))), ?_, ?_⟩
    · rw [execute_L m w hop]
      simp [Task3.processLType, h3, hadr, loadByte, MEMORY_SIZE, hlt, hm0]
    · simp only [advance]
      rw [writeRegister_same _ _ _ hun]
      unfold ofInt i8
      split <;> split <;> omega
  · intro h3 hlt
    refine ⟨advance m (writeRegister m.registers (rdOf w) (u32 b0)), ?_, ?_⟩
    · rw [execute_L m w hop]
      simp [Task3.processLType, h3, hadr, loadByte, MEMORY_SIZE, hlt, hm0]
    · simp only [advance]
      rw [writeRegister_same _ _ _ hun]
      unfold u32
      omega
  · intro h3 hlt
    refine ⟨advance m (writeRegister m.registers (rdOf w) (ofInt (i16 (b0 ||| (b1 <<< 8))))),
      ?_, ?_⟩
    · rw [execute_L m w hop]
      have hlt0 : A < 1048576 := by omega
      simp [Task3.processLType, h3, hadr, loadByte, MEMORY_SIZE, hlt, hlt0, hm0, hm1, hA1 hlt]
    · simp only [advance]
      rw [writeRegister_same _ _ _ hun, or_shift8 b0 b1 h0]
      unfold ofInt i16
      split <;> split <;> omega
  · intro h3 hlt
    refine ⟨advance m (writeRegister m.registers (rdOf w) (ofInt (i32 (b0 ||| (b1 <<< 8))))),
      ?_, ?_⟩
    · rw [execute_L m w hop]
      have hlt0 : A < 1048576 := by omega
      simp [Task3.processLType, h3, hadr, loadByte, MEMORY_SIZE, hlt, hlt0, hm0, hm1, hA1 hlt]
    · simp only [advance]
      rw [writeRegister_same _ _ _ hun, or_shift8 b0 b1 h0, ofInt_i32]
      unfold u32
      omega

theorem load_sign_and_zero_extension_witness :
    (∃ m', Task3.execute machineD 0x00800083 = some (Outcome.running m') ∧
      (m'.registers 1).value = 0xFFFFFFFF) ∧
    (∃ m', Task3.execute machineD 0x00804083 = some (Outcome.running m') ∧
      (m'.registers 1).value = 255) ∧
    (∃ m', Task3.execute machineD 0x00801083 = some (Outcome.running m') ∧
      (m'.registers 1).value = 0xFFFF80FF) ∧
    (∃ m', Task3.execute machineD 0x00805083 = some (Outcome.running m') ∧
      (m'.registers 1).value = 0x80FF) :=
  ⟨(load_sign_and_zero_extension machineD 0x00800083 8 0xFF 0x80 (lockInvariant_regsOf _)
      (by decide) (by decide) (by decide) (by decide) (by decide) (by decide) (by decide)).1
      (by decide) (by decide),
   (load_sign_and_zero_extension machineD 0x00804083 8 0xFF 0x80 (lockInvariant_regsOf _)
      (by decide) (by decide) (by decide) (by decide) (by decide) (by decide) (by decide)).2.1
      (by decide) (by decide),
   (load_sign_and_zero_extension machineD 0x00801083 8 0xFF 0x80 (lockInvariant_regsOf _)
      (by decide) (by decide) (by decide) (by decide) (by decide) (by decide) (by decide)).2.2.1
      (by decide) (by decide),
   (load_sign_and_zero_extension machineD 0x00805083 8 0xFF 0x80 (lockInvariant_regsOf _)
      (by decide) (by decide) (by decide) (by decide) (by decide) (by decide) (by decide)).2.2.2
      (by decide) (by decide)⟩

/-! ## C8 -/

/-- C8: in the Task3 engine, for rd ≠ 0 and program counter `p`: a word with
opcode 0x37 (LUI) sets rd to `word & 0xFFFFF000`, a word with opcode 0x17
(AUIPC) sets rd to `(p + (word & 0xFFFFF000)) mod 2^32`, with `p` the program
counter of the instruction itself; in both cases the program counter becomes
`(p + 4) mod 2^32`, which is `p + 4` whenever that is a 32-bit value. -/
theorem lui_auipc_upper_immediate (m : Machine) (w p : Nat)
    (hlock : LockInvariant m.registers) (hrd : rdOf w ≠ 0) (hp : m.programCounter = p) :
    (w &&& 0x7F = 0x37 →
      ∃ m', Task3.execute m w = some (Outcome.running m') ∧
        (m'.registers (rdOf w)).value = w &&& 0xFFFFF000 ∧
        m'.programCounter = (p + 4) % 4294967296 ∧
        (p + 4 < 4294967296 → m'.programCounter = p + 4)) ∧
    (w &&& 0x7F = 0x17 →
      ∃ m', Task3.execute m w = some (Outcome.running m') ∧
        (m'.registers (rdOf w)).value = (p + (w &&& 0xFFFFF000)) % 4294967296 ∧
        m'.programCounter = (p + 4) % 4294967296 ∧
        (p + 4 < 4294967296 → m'.programCounter = p + 4)) := by
  have hun := unlocked_of_invariant m.registers hlock w hrd
  constructor
  · intro hop
    refine ⟨advance m (writeRegister m.registers (rdOf w) (u32 (immU w <<< 12))), ?_, ?_, ?_, ?_⟩
    · simp [Task3.execute, hop, Task3.processUType]
    · simp only [advance]
      rw [writeRegister_same _ _ _ hun, upper_immediate]
    · simp only [advance, u32, hp]
    · intro h
      simp only [advance, u32, hp]
      omega
  · intro hop
    refine ⟨advance m (writeRegister m.registers (rdOf w)
      (u32 (m.programCounter + u32 (immU w <<< 12)))), ?_, ?_, ?_, ?_⟩
    · simp [Task3.execute, hop, Task3.processUType]
    · simp only [advance]
      rw [writeRegister_same _ _ _ hun, upper_immediate, hp]
      rfl
    · simp only [advance, u32, hp]
    · intro h
      simp only [advance, u32, hp]
      omega

theorem lui_auipc_upper_immediate_witness :
    (0x123450B7 >>> 12 = 0x12345 ∧
      ∃ m', Task3.execute machine0 0x123450B7 = some (Outcome.running m') ∧
        (m'.registers 1).value = 0x12345000 ∧ m'.programCounter = 4) ∧
    (0x00001097 >>> 12 = 0x1 ∧ machineA.programCounter = 0x10 ∧
      ∃ m', Task3.execute machineA 0x00001097 = some (Outcome.running m') ∧
        (m'.registers 1).value = 0x1010 ∧ m'.programCounter = 0x14) := by
  obtain ⟨m1, h1, h2, _, h3⟩ :=
    (lui_auipc_upper_immediate machine0 0x123450B7 0 (lockInvariant_initial _) (by decide)
      rfl).1 (by decide)
  obtain ⟨m2, k1, k2, _, k3⟩ :=
    (lui_auipc_upper_immediate machineA 0x00001097 0x10 (lockInvariant_regsOf _) (by decide)
      rfl).2 (by decide)
  exact ⟨⟨by decide, m1, h1, h2.trans (by decide), h3 (by decide)⟩,
    ⟨by decide, rfl, m2, k1, k2.trans (by decide), k3 (by decide)⟩⟩

/-! ## C9 -/

/-- C9: in the Task3 engine, for every word with opcode 0x67 (JALR) executed
at program counter `p`, with `x` the value of rs1 before the instruction and
`immI w` the sign-extended I-format immediate: the next program counter is
`(x + imm) mod 2^32` with bit 0 cleared, and rd (when rd ≠ 0) becomes
`(p + 4) mod 2^32`, which is `p + 4` whenever that is a 32-bit value; rd and
rs1 may be the same register (the target uses the old value of rs1). -/
theorem jalr_target_and_link (m : Machine) (w p x : Nat)
    (hlock : LockInvariant m.registers) (hop : w &&& 0x7F = 0x67)
    (hp : m.programCounter = p) (hx : (m.registers (rs1Of w)).value = x) :
    ∃ m', Task3.execute m w = some (Outcome.running m') ∧
      (m'.programCounter : Int) = 2 * ((((x : Int) + immI w) % 4294967296) / 2) ∧
      (rdOf w ≠ 0 → (m'.registers (rdOf w)).value = (p + 4) % 4294967296) ∧
      (rdOf w ≠ 0 → p + 4 < 4294967296 → (m'.registers (rdOf w)).value = p + 4) := by
  refine ⟨{ registers := writeRegister m.registers (rdOf w) (u32 (m.programCounter + 4)),
            programCounter := u32 ((m.registers (rs1Of w)).value + ofInt (immI w)) &&& 0xFFFFFFFE,
            memory := m.memory }, ?_, ?_, ?_, ?_⟩
  · simp [Task3.execute, hop, Task3.processJALRType]
  · simp only
    rw [clear_bit0 _ (by unfold u32; omega), hx]
    unfold u32 ofInt
    omega
  · intro hrd
    simp only
    rw [writeRegister_same _ _ _ (unlocked_of_invariant m.registers hlock w hrd), hp]
    rfl
  · intro hrd hlt
    simp only
    rw [writeRegister_same _ _ _ (unlocked_of_invariant m.registers hlock w hrd), hp]
    unfold u32
    omega

theorem jalr_target_and_link_witness :
    rdOf 0x006080E7 = 1 ∧ rs1Of 0x006080E7 = 1 ∧ immI 0x006080E7 = 6 ∧
    (machineA.registers 1).value = 0xFFFFFFFF ∧
    ∃ m', Task3.execute machineA 0x006080E7 = some (Outcome.running m') ∧
      (m'.programCounter : Int) = 4 ∧ (m'.registers 1).value = 0x14 := by
  obtain ⟨m1, h1, h2, _, h3⟩ :=
    jalr_target_and_link machineA 0x006080E7 0x10 0xFFFFFFFF (lockInvariant_regsOf _)
      (by decide) rfl (by decide)
  exact ⟨by decide, by decide, by decide, by decide, m1, h1, h2.trans (by decide),
    h3 (by decide) (by decide)⟩

/-! ## C10 -/

/-- C10: in the Task3 engine, for every word with opcode 0x6F (JAL) executed
at program counter `p`, with `immJ w` the J-format immediate of the decoder:
rd (when rd ≠ 0) becomes `(p + 4) mod 2^32`, the next program counter is
`(p + imm) mod 2^32`, and no other register, no lock flag and no memory byte
changes (no register at all when rd = 0). -/
theorem jal_link_and_target (m : Machine) (w p : Nat)
    (hlock : LockInvariant m.registers) (hop : w &&& 0x7F = 0x6F)
    (hp : m.programCounter = p) :
    ∃ m', Task3.execute m w = some (Outcome.running m') ∧
      (rdOf w ≠ 0 → (m'.registers (rdOf w)).value = (p + 4) % 4294967296) ∧
      (m'.programCounter : Int) = ((p : Int) + immJ w) % 4294967296 ∧
      (∀ j, j ≠ rdOf w → m'.registers j = m.registers j) ∧
      (rdOf w = 0 → m'.registers = m.registers) ∧
      (∀ j, (m'.registers j).locked = (m.registers j).locked) ∧
      m'.memory = m.memory := by
  refine ⟨{ registers := writeRegister m.registers (rdOf w) (u32 (m.programCounter + 4)),
            programCounter := u32 (m.programCounter + ofInt (immJ w)),
            memory := m.memory }, ?_, ?_, ?_, ?_, ?_, ?_, rfl⟩
  · simp [Task3.execute, hop, Task3.processJALType]
  · intro hrd
    simp only
    rw [writeRegister_same _ _ _ (unlocked_of_invariant m.registers hlock w hrd), hp]
    rfl
  · simp only
    rw [hp]
    unfold u32 ofInt
    omega
  · intro j hj
    exact writeRegister_other _ _ _ _ hj
  · intro h0
    simp only
    rw [h0]
    exact writeRegister_dropped _ _ _ (by rw [hlock.2.1]; decide)
  · intro j
    exact writeRegister_locked _ _ _ _

theorem jal_link_and_target_witness :
    rdOf 0x008000EF = 1 ∧ immJ 0x008000EF = 8 ∧
    ∃ m', Task3.execute machineA 0x008000EF = some (Outcome.running m') ∧
      (m'.registers 1).value = 0x14 ∧ (m'.programCounter : Int) = 0x18 ∧
      m'.registers 2 = machineA.registers 2 ∧ m'.memory = machineA.memory := by
  obtain ⟨m1, h1, h2, h3, h4, _, _, h5⟩ :=
    jal_link_and_target machineA 0x008000EF 0x10 (lockInvariant_regsOf _) (by decide) rfl
  exact ⟨by decide, by decide, m1, h1, (h2 (by decide)).trans (by decide),
    h3.trans (by decide), h4 2 (by decide), h5⟩

/-! ## Closed forms of the decoded immediates -/

theorem and_4095 (x : Nat) : x &&& 0xFFF = x % 4096 := Nat.and_pow_two_sub_one_eq_mod x 12

theorem and_31 (x : Nat) : x &&& 0x1F = x % 32 := Nat.and_pow_two_sub_one_eq_mod x 5

theorem and_127 (x : Nat) : x &&& 0x7F = x % 128 := Nat.and_pow_two_sub_one_eq_mod x 7

theorem ofInt_cast (i : Int) : ((ofInt i : Nat) : Int) = i % 4294967296 := by
  unfold ofInt; omega

theorem immI_eq (w : Nat) (hw : w < 4294967296) :
    immI w = ((w / 1048576 : Nat) : Int) - (if 2147483648 ≤ w then 4096 else 0) := by
  unfold immI
  rw [and_4095, Nat.shiftRight_eq_div_pow, Nat.shiftRight_eq_div_pow]
  by_cases h : 2147483648 ≤ w
  · have h1 : w / 2 ^ 31 ≠ 0 := by omega
    have hor := Nat.mul_add_lt_is_or (i := 12) (b := w / 2 ^ 20 % 4096) (by omega) 0xFFFFF
    have e : 2 ^ 12 * 0xFFFFF = 0xFFFFF000 := by norm_num
    rw [e] at hor
    rw [if_pos h1, if_pos h, ← hor]
    unfold i32
    split <;> omega
  · have h1 : ¬ (w / 2 ^ 31 ≠ 0) := by omega
    rw [if_neg h1, if_neg h, Nat.zero_or]
    unfold i32
    split <;> omega

theorem immS_eq (w : Nat) : immS w = 32 * (w / 33554432 % 128) + w / 128 % 32 := by
  unfold immS
  simp only
  rw [and_31, and_127, Nat.shiftRight_eq_div_pow, Nat.shiftRight_eq_div_pow, Nat.shiftLeft_eq]
  have hor := Nat.mul_add_lt_is_or (i := 5) (b := w / 2 ^ 7 % 32) (by omega) (w / 2 ^ 25 % 128)
  rw [Nat.mul_comm, ← hor]
  unfold u32
  omega

theorem or_high_mask (x : Nat) (hx : x < 4294967296) :
    x ||| 0xFFFFFFC0 = 0xFFFFFFC0 + x % 64 := by
  have hor := Nat.mul_add_lt_is_or (i := 6) (b := x % 64) (by omega) 0x3FFFFFF
  have e : 2 ^ 6 * 0x3FFFFFF = 0xFFFFFFC0 := by norm_num
  rw [e] at hor
  rw [hor, ← Nat.and_pow_two_sub_one_eq_mod x 6]
  have eM : (0xFFFFFFC0 : Nat) = (2 ^ 26 - 1) <<< 6 := by decide
  rw [eM]
  apply Nat.eq_of_testBit_eq
  intro i
  simp only [Nat.testBit_or, Nat.testBit_and, Nat.testBit_shiftLeft, Nat.testBit_two_pow_sub_one]
  by_cases h6 : i < 6
  · have : ¬ (i ≥ 6) := by omega
    simp [h6, this]
  · by_cases h32 : i < 32
    · have h1 : i ≥ 6 := by omega
      have h2 : i - 6 < 26 := by omega
      simp [h1, h2]
    · have hx' : x < 2 ^ i := by
        have : (2:Nat) ^ 32 ≤ 2 ^ i := Nat.pow_le_pow_right (by decide) (by omega)
        omega
      have h2 : ¬ (i - 6 < 26) := by omega
      simp [Nat.testBit_lt_two_pow hx', h6, h2]

theorem bit6_iff : ∀ a, a < 128 → (a &&& 0x40 ≠ 0 ↔ 64 ≤ a) := by decide

theorem immB_eq (w : Nat) :
    immB w = if 64 ≤ w / 33554432 % 128
      then (((32 * (w / 33554432 % 128) + w / 128 % 32) % 64 : Nat) : Int) - 65
      else ((32 * (w / 33554432 % 128) + w / 128 % 32 : Nat) : Int) := by
  have hS := immS_eq w
  have hflat : immS w < 4096 := by rw [hS]; omega
  have hb := bit6_iff (w / 33554432 % 128) (by omega)
  have e7 : (w >>> 25) &&& 0x7F = w / 33554432 % 128 := by
    rw [and_127, Nat.shiftRight_eq_div_pow]
  have hi : i32 (immS w) = ((immS w : Nat) : Int) := by rw [i32_eq _ (by omega)]; simp; omega
  have ho : ofInt ((immS w : Nat) : Int) = immS w := by unfold ofInt; omega
  show (if ((w >>> 25) &&& 0x7F) &&& 0x40 ≠ 0 then i32 (ofInt (i32 (immS w)) ||| 0xFFFFFFC0) - 1
    else i32 (immS w)) = _
  rw [e7, hi, ho]
  by_cases h : 64 ≤ w / 33554432 % 128
  · rw [if_pos (hb.mpr h), if_pos h, or_high_mask _ (by omega), i32_eq _ (by omega), hS]
    split <;> omega
  · rw [if_neg (fun h' => h (hb.mp h')), if_neg h, hS]

theorem immJ_range (w : Nat) : 0 ≤ immJ w ∧ immJ w < 2097152 := by
  have h1 : ((w >>> 31) &&& 0x1) <<< 20 < 2 ^ 21 := by
    have : (w >>> 31) &&& 0x1 ≤ 1 := Nat.and_le_right
    rw [Nat.shiftLeft_eq]; omega
  have h2 : ((w >>> 12) &&& 0xFF) <<< 12 < 2 ^ 21 := by
    have : (w >>> 12) &&& 0xFF ≤ 0xFF := Nat.and_le_right
    rw [Nat.shiftLeft_eq]; omega
  have h3 : ((w >>> 20) &&& 0x1) <<< 11 < 2 ^ 21 := by
    have : (w >>> 20) &&& 0x1 ≤ 1 := Nat.and_le_right
    rw [Nat.shiftLeft_eq]; omega
  have h4 : ((w >>> 21) &&& 0x3FF) <<< 1 < 2 ^ 21 := by
    have : (w >>> 21) &&& 0x3FF ≤ 0x3FF := Nat.and_le_right
    rw [Nat.shiftLeft_eq]; omega
  have h := Nat.or_lt_two_pow (Nat.or_lt_two_pow (Nat.or_lt_two_pow h1 h2) h3) h4
  have e : (2 : Nat) ^ 21 = 2097152 := by norm_num
  rw [e] at h
  unfold immJ i32 u32
  simp only
  split <;> omega

/-! ## More cases of the `switch (opcode)` of Task3 -/

theorem execute_I (m : Machine) (w : Nat) (h : w &&& 0x7F = 0x13) :
    Task3.execute m w = (Task3.processIType m w).map Outcome.running := by
  simp only [Task3.execute, h]

theorem execute_B (m : Machine) (w : Nat) (h : w &&& 0x7F = 0x63) :
    Task3.execute m w = (Task3.processBType m w).map Outcome.running := by
  simp only [Task3.execute, h]

theorem execute_U (m : Machine) (w : Nat) (h : w &&& 0x7F = 0x37 ∨ w &&& 0x7F = 0x17) :
    Task3.execute m w = (Task3.processUType m w).map Outcome.running := by
  rcases h with h | h <;> simp only [Task3.execute, h]

theorem advance_pc (m m' : Machine) (r : Nat → Register)
    (h : some (advance m r) = some m') : m'.programCounter = u32 (m.programCounter + 4) := by
  simp only [Option.some.injEq] at h
  subst h
  rfl

/-- Every execution of an R, I, S, L, LUI or AUIPC word advances the
program counter by 4 (mod 2^32), whatever its funct3 and funct7. -/
theorem execute_advances_pc (m : Machine) (w : Nat) (o : Outcome)
    (hop : w &&& 0x7F = 0x33 ∨ w &&& 0x7F = 0x13 ∨ w &&& 0x7F = 0x23 ∨ w &&& 0x7F = 0x03 ∨
      w &&& 0x7F = 0x37 ∨ w &&& 0x7F = 0x17)
    (h : Task3.execute m w = some o) :
    ∃ m', o = Outcome.running m' ∧ m'.programCounter = u32 (m.programCounter + 4) := by
  rcases hop with hop | hop | hop | hop | hop | hop
  · rw [execute_R m w hop, Option.map_eq_some'] at h
    obtain ⟨m', hm, rfl⟩ := h
    exact ⟨m', rfl, advance_pc m m' _ hm⟩
  · rw [execute_I m w hop, Option.map_eq_some'] at h
    obtain ⟨m', hm, rfl⟩ := h
    exact ⟨m', rfl, advance_pc m m' _ hm⟩
  · rw [execute_S m w hop, Option.map_eq_some'] at h
    obtain ⟨m', hm, rfl⟩ := h
    refine ⟨m', rfl, ?_⟩
    unfold Task3.processSType at hm
    simp only [Option.some.injEq] at hm
    subst hm
    rfl
  · rw [execute_L m w hop, Option.map_eq_some'] at h
    obtain ⟨m', hm, rfl⟩ := h
    exact ⟨m', rfl, advance_pc m m' _ hm⟩
  · rw [execute_U m w (Or.inl hop), Option.map_eq_some'] at h
    obtain ⟨m', hm, rfl⟩ := h
    refine ⟨m', rfl, ?_⟩
    simp only [Task3.processUType, hop, Option.some.injEq] at hm
    subst hm; rfl
  · rw [execute_U m w (Or.inr hop), Option.map_eq_some'] at h
    obtain ⟨m', hm, rfl⟩ := h
    refine ⟨m', rfl, ?_⟩
    simp only [Task3.processUType, hop, Option.some.injEq] at hm
    subst hm; rfl

theorem count_low_bits (i : Int) : (i % 32).toNat = ofInt i &&& 0x1F := by
  rw [and_31]
  unfold ofInt
  omega

theorem count_low_bits_nat (b : Nat) : ((b : Int) % 32).toNat = b &&& 0x1F := by
  rw [and_31]
  omega

/-! ## C11 -/

/-- C11 (the code at a failing input): the displacement decoded by
`processJALType` is never negative, for any word; for the word 0xFFDFF06F
(`jal x0, -4`, bit 31 set) it is 2097148 instead of -4, and executing that
word at program counter 16 moves the program counter to 2097164. -/
theorem jal_immediate_not_sign_extended :
    (∀ w, 0 ≤ immJ w ∧ immJ w < 2097152) ∧
    Nat.testBit 0xFFDFF06F 31 = true ∧ 0xFFDFF06F &&& 0x7F = 0x6F ∧
    immJ 0xFFDFF06F = 2097148 ∧
    machineA.programCounter = 16 ∧
    ∃ m', Task3.execute machineA 0xFFDFF06F = some (Outcome.running m') ∧
      m'.programCounter = 2097164 :=
  ⟨immJ_range, by decide, by decide, by decide, rfl, _, rfl, by decide⟩

/-! ## C12 -/

/-- C12: in the Task3 engine, for every word with opcode 0x63 executed at
program counter `p`, with `a`, `b` the 32-bit values of rs1, rs2: registers
and memory are unchanged, and for funct3 = 0, 1, 4, 5, 6, 7 the predicate is
`a = b`, `a ≠ b`, `a < b` signed, `a ≥ b` signed, `a < b` unsigned, `a ≥ b`
unsigned; when it holds the next program counter is `(p + imm) mod 2^32` with
`imm` the decoder's B-immediate, otherwise it is `(p + 4) mod 2^32` (which is
`p + 4` whenever that is a 32-bit value). -/
theorem branch_predicate_and_target (m : Machine) (w p a b : Nat)
    (hop : w &&& 0x7F = 0x63)
    (hp : m.programCounter = p)
    (ha : (m.registers (rs1Of w)).value = a) (hb : (m.registers (rs2Of w)).value = b)
    (ha32 : a < 4294967296) (hb32 : b < 4294967296) :
    ∃ m', Task3.execute m w = some (Outcome.running m') ∧
      m'.registers = m.registers ∧ m'.memory = m.memory ∧
      (funct3Of w = 0 →
        (a = b → (m'.programCounter : Int) = ((p : Int) + immB w) % 4294967296) ∧
        (¬ a = b → m'.programCounter = (p + 4) % 4294967296)) ∧
      (funct3Of w = 1 →
        (a ≠ b → (m'.programCounter : Int) = ((p : Int) + immB w) % 4294967296) ∧
        (¬ a ≠ b → m'.programCounter = (p + 4) % 4294967296)) ∧
      (funct3Of w = 4 →
        ((a : Int) - (if 2147483648 ≤ a then 4294967296 else 0) <
            (b : Int) - (if 2147483648 ≤ b then 4294967296 else 0) →
          (m'.programCounter : Int) = ((p : Int) + immB w) % 4294967296) ∧
        (¬ (a : Int) - (if 2147483648 ≤ a then 4294967296 else 0) <
            (b : Int) - (if 2147483648 ≤ b then 4294967296 else 0) →
          m'.programCounter = (p + 4) % 4294967296)) ∧
      (funct3Of w = 5 →
        ((a : Int) - (if 2147483648 ≤ a then 4294967296 else 0) ≥
            (b : Int) - (if 2147483648 ≤ b then 4294967296 else 0) →
          (m'.programCounter : Int) = ((p : Int) + immB w) % 4294967296) ∧
        (¬ (a : Int) - (if 2147483648 ≤ a then 4294967296 else 0) ≥
            (b : Int) - (if 2147483648 ≤ b then 4294967296 else 0) →
          m'.programCounter = (p + 4) % 4294967296)) ∧
      (funct3Of w = 6 →
        (a < b → (m'.programCounter : Int) = ((p : Int) + immB w) % 4294967296) ∧
        (¬ a < b → m'.programCounter = (p + 4) % 4294967296)) ∧
      (funct3Of w = 7 →
        (a ≥ b → (m'.programCounter : Int) = ((p : Int) + immB w) % 4294967296) ∧
        (¬ a ≥ b → m'.programCounter = (p + 4) % 4294967296)) ∧
      (p + 4 < 4294967296 → (p + 4) % 4294967296 = p + 4) := by
  have hpc : ((u32 (p + ofInt (immB w)) : Nat) : Int) = ((p : Int) + immB w) % 4294967296 := by
    unfold u32 ofInt; omega
  have hmod : p + 4 < 4294967296 → (p + 4) % 4294967296 = p + 4 := fun h => Nat.mod_eq_of_lt h
  rw [execute_B m w hop]
  unfold Task3.processBType
  simp only [ha, hb, hp]
  rw [← i32_eq a ha32, ← i32_eq b hb32]
  cases hbc : Task3.branchCondition (funct3Of w) a b with
  | none =>
    refine ⟨m, rfl, rfl, rfl, ?_, ?_, ?_, ?_, ?_, ?_, hmod⟩ <;> intro h3 <;> rw [h3] at hbc <;>
      simp [Task3.branchCondition] at hbc
  | some t =>
    cases t with
    | true =>
      refine ⟨_, rfl, rfl, rfl, ?_, ?_, ?_, ?_, ?_, ?_, hmod⟩ <;> intro h3 <;>
        rw [h3] at hbc <;>
        simp only [Task3.branchCondition, Option.some.injEq, decide_eq_true_eq] at hbc <;>
        exact ⟨fun _ => hpc, fun hn => absurd hbc hn⟩
    | false =>
      refine ⟨_, rfl, rfl, rfl, ?_, ?_, ?_, ?_, ?_, ?_, hmod⟩ <;> intro h3 <;>
        rw [h3] at hbc <;>
        simp only [Task3.branchCondition, Option.some.injEq, decide_eq_false_iff_not] at hbc <;>
        exact ⟨fun hy => absurd hy hbc, fun _ => by simp only [advance, u32, hp]⟩

theorem branch_predicate_and_target_witness :
    immB 0x0020C463 = 8 ∧
    (∃ m', Task3.execute machineB 0x0020C463 = some (Outcome.running m') ∧
      m'.registers = machineB.registers ∧ (m'.programCounter : Int) = 8) ∧
    (∃ m', Task3.execute machineB 0x0020E463 = some (Outcome.running m') ∧
      m'.registers = machineB.registers ∧ m'.programCounter = 4) := by
  obtain ⟨m1, h1, h2, _, _, _, h3, _⟩ :=
    branch_predicate_and_target machineB 0x0020C463 0 0xFFFFFFFF 1 (by decide) rfl
      (by decide) (by decide) (by decide) (by decide)
  obtain ⟨m2, k1, k2, _, _, _, _, _, k3, _⟩ :=
    branch_predicate_and_target machineB 0x0020E463 0 0xFFFFFFFF 1 (by decide) rfl
      (by decide) (by decide) (by decide) (by decide)
  exact ⟨by decide, ⟨m1, h1, h2, ((h3 (by decide)).1 (by decide)).trans (by decide)⟩,
    ⟨m2, k1, k2, ((k3 (by decide)).2 (by decide)).trans (by decide)⟩⟩

/-! ## C13 -/

/-- C13 (the code at a failing input): in the Task3 engine the B-type word
0x00002063 (opcode 0x63, funct3 = 2, for which `processBType` has no `case`)
executed at program counter 16 leaves the program counter at 16, not 20. -/
theorem branch_funct3_two_keeps_pc :
    machineA.programCounter = 16 ∧ 0x00002063 &&& 0x7F = 0x63 ∧ funct3Of 0x00002063 = 2 ∧
    ∃ m', Task3.execute machineA 0x00002063 = some (Outcome.running m') ∧
      m'.programCounter = 16 :=
  ⟨rfl, by decide, by decide, _, rfl, by decide⟩

/-! ## C14 -/

/-- C14: for every word whose low 7 bits are 0x73, one engine step (of Task3
and of Task2) ends the program with the state unchanged; hence running an
image that consists of that single word from the initial state ends after one
fetch with every register equal to 0. -/
theorem ecall_halts_unchanged (m : Machine) (w : Nat) (hop : w &&& 0x7F = 0x73) :
    Task3.execute m w = some (Outcome.finished m) ∧
    Task2.execute m w = some (Outcome.finished m) ∧
    ∀ (image : List Nat) (fuel : Nat), image.length = 4 → fetch image 0 = some w →
      (∃ m', Task3.main image (fuel + 1) = RunResult.done m' 1 ∧
        ∀ i, i < 32 → (m'.registers i).value = 0) ∧
      (∃ m', Task2.main image (fuel + 1) = RunResult.done m' 1 ∧
        ∀ i, i < 32 → (m'.registers i).value = 0) := by
  have e3 : ∀ m : Machine, Task3.execute m w = some (Outcome.finished m) := by
    intro m; simp only [Task3.execute, hop]
  have e2 : ∀ m : Machine, Task2.execute m w = some (Outcome.finished m) := by
    intro m; simp only [Task2.execute, hop]
  have hz : ∀ (mem : Nat → Nat) (i : Nat), i < 32 →
      ((initialMachine mem).registers i).value = 0 := by
    intro mem i hi
    by_cases h0 : i = 0 <;> simp [initialMachine, initializeRegisters, NUM_REGISTERS, h0, hi]
  refine ⟨e3 m, e2 m, ?_⟩
  intro image fuel hlen hf
  constructor
  · have hl : ¬ image.length > MEMORY_SIZE := by rw [hlen]; decide
    refine ⟨initialMachine (fun j => if j < image.length then byteAt image j else 0), ?_, hz _⟩
    have hf' : fetch image (initialMachine
        (fun j => if j < image.length then byteAt image j else 0)).programCounter = some w := hf
    simp only [Task3.main, Task3.loadInstructions, if_neg hl, runLoop, hf', e3]
  · refine ⟨initialMachine (fun _ => 0), ?_, hz _⟩
    have hf' : fetch image (initialMachine (fun _ => 0)).programCounter = some w := hf
    simp only [Task2.main, runLoop, hf', e2]

theorem ecall_halts_unchanged_witness :
    fetch ecallImage 0 = some 0xFFFFFFF3 ∧
    (∃ m', Task3.main ecallImage 1 = RunResult.done m' 1 ∧
        ∀ i, i < 32 → (m'.registers i).value = 0) ∧
    (∃ m', Task2.main ecallImage 1 = RunResult.done m' 1 ∧
        ∀ i, i < 32 → (m'.registers i).value = 0) :=
  ⟨by decide,
   (ecall_halts_unchanged machine0 0xFFFFFFF3 (by decide)).2.2 ecallImage 0 (by decide)
     (by decide)⟩

/-! ## C15 -/

/-- C15: in the Task3 engine, for every word whose opcode is not one of 0x33,
0x13, 0x23, 0x03, 0x37, 0x17, 0x63, 0x6F, 0x67, 0x73, one engine step leaves
the whole state (program counter, registers, memory) unchanged and does not
end the program; so once the program counter is at such a word, the state
after any number of further steps is the same and the loop never ends. -/
theorem unrecognized_opcode_stalls (m : Machine) (w : Nat)
    (h33 : w &&& 0x7F ≠ 0x33) (h13 : w &&& 0x7F ≠ 0x13) (h23 : w &&& 0x7F ≠ 0x23)
    (h03 : w &&& 0x7F ≠ 0x03) (h37 : w &&& 0x7F ≠ 0x37) (h17 : w &&& 0x7F ≠ 0x17)
    (h63 : w &&& 0x7F ≠ 0x63) (h6F : w &&& 0x7F ≠ 0x6F) (h67 : w &&& 0x7F ≠ 0x67)
    (h73 : w &&& 0x7F ≠ 0x73) :
    Task3.execute m w = some (Outcome.running m) ∧
    ∀ image : List Nat, fetch image m.programCounter = some w →
      (∀ n, Task3.stepN image n m = some (Outcome.running m)) ∧
      (∀ fuel k, runLoop Task3.execute image fuel m k = RunResult.outOfFuel) := by
  have e : Task3.execute m w = some (Outcome.running m) := by
    unfold Task3.execute
    split <;> first | rfl | (rename_i h; first
      | exact absurd h h33 | exact absurd h h13 | exact absurd h h23 | exact absurd h h03
      | exact absurd h h37 | exact absurd h h17 | exact absurd h h63 | exact absurd h h6F
      | exact absurd h h67 | exact absurd h h73)
  refine ⟨e, ?_⟩
  intro image hf
  constructor
  · intro n
    induction n with
    | zero => rfl
    | succ n ih =>
      simp only [Task3.stepN, Task3.step, hf, e]
      exact ih
  · intro fuel
    induction fuel with
    | zero => intro k; rfl
    | succ n ih =>
      intro k
      simp only [runLoop, hf, e]
      exact ih (k + 1)

theorem unrecognized_opcode_stalls_witness :
    fetch zeroImage machine0.programCounter = some 0 ∧
    Task3.execute machine0 0 = some (Outcome.running machine0) ∧
    (∀ n, Task3.stepN zeroImage n machine0 = some (Outcome.running machine0)) ∧
    (∀ fuel k, runLoop Task3.execute zeroImage fuel machine0 k = RunResult.outOfFuel) :=
  ⟨by decide,
   (unrecognized_opcode_stalls machine0 0 (by decide) (by decide) (by decide) (by decide)
     (by decide) (by decide) (by decide) (by decide) (by decide) (by decide)).1,
   (unrecognized_opcode_stalls machine0 0 (by decide) (by decide) (by decide) (by decide)
     (by decide) (by decide) (by decide) (by decide) (by decide) (by decide)).2 zeroImage
     (by decide)⟩

/-! ## C16 -/

/-- C16 (counterexample): the R-type word 0x02000033 (funct3 = 0, funct7 = 1,
an unrecognised combination) executed at program counter 16 moves the program
counter to 20. -/
theorem unrecognized_rtype_advances_pc :
    machineA.programCounter = 16 ∧ 0x02000033 &&& 0x7F = 0x33 ∧
    funct3Of 0x02000033 = 0 ∧ funct7Of 0x02000033 = 1 ∧
    ∃ m', Task3.execute machineA 0x02000033 = some (Outcome.running m') ∧
      m'.programCounter = 20 :=
  ⟨rfl, by decide, by decide, by decide, _, rfl, by decide⟩

/-- C16 (amended): in the Task3 engine, an R-type word with funct3 0 or 5 and
funct7 not in {0x00, 0x20}, an S-type word with funct3 not in {0, 1, 2} and an
L-type word with funct3 in {3, 6, 7} leave all registers and memory unchanged
and advance the program counter by 4 (mod 2^32); a B-type word with funct3 in
{2, 3} leaves the whole state, program counter included, unchanged. -/
theorem unrecognized_funct_effect (m : Machine) (w p : Nat) (hp : m.programCounter = p) :
    ((w &&& 0x7F = 0x33 ∧ (funct3Of w = 0 ∨ funct3Of w = 5) ∧
        funct7Of w ≠ 0x00 ∧ funct7Of w ≠ 0x20) ∨
      (w &&& 0x7F = 0x23 ∧ funct3Of w ≠ 0 ∧ funct3Of w ≠ 1 ∧ funct3Of w ≠ 2) ∨
      (w &&& 0x7F = 0x03 ∧ (funct3Of w = 3 ∨ funct3Of w = 6 ∨ funct3Of w = 7)) →
      ∃ m', Task3.execute m w = some (Outcome.running m') ∧
        m'.registers = m.registers ∧ m'.memory = m.memory ∧
        m'.programCounter = (p + 4) % 4294967296) ∧
    (w &&& 0x7F = 0x63 ∧ (funct3Of w = 2 ∨ funct3Of w = 3) →
      Task3.execute m w = some (Outcome.running m)) := by
  constructor
  · rintro (⟨hop, hf3, h7a, h7b⟩ | ⟨hop, h0, h1, h2⟩ | ⟨hop, hf3⟩)
    · refine ⟨advance m m.registers, ?_, rfl, rfl, by simp only [advance, u32, hp]⟩
      rw [execute_R m w hop]
      rcases hf3 with h | h <;> simp [Task3.processRType, h, h7a, h7b]
    · refine ⟨advance m m.registers, ?_, rfl, rfl, by simp only [advance, u32, hp]⟩
      rw [execute_S m w hop]
      unfold Task3.processSType
      simp only
      rfl
    · refine ⟨advance m m.registers, ?_, rfl, rfl, by simp only [advance, u32, hp]⟩
      rw [execute_L m w hop]
      rcases hf3 with h | h | h <;> simp [Task3.processLType, h]
  · rintro ⟨hop, hf3⟩
    rw [execute_B m w hop]
    rcases hf3 with h | h <;> simp [Task3.processBType, h, Task3.branchCondition]

theorem unrecognized_funct_effect_witness :
    (∃ m', Task3.execute machineA 0x02000033 = some (Outcome.running m') ∧
      m'.registers = machineA.registers ∧ m'.memory = machineA.memory ∧
      m'.programCounter = 20) ∧
    (∃ m', Task3.execute machineA 0x00003023 = some (Outcome.running m') ∧
      m'.registers = machineA.registers ∧ m'.memory = machineA.memory ∧
      m'.programCounter = 20) ∧
    (∃ m', Task3.execute machineA 0x00003003 = some (Outcome.running m') ∧
      m'.registers = machineA.registers ∧ m'.memory = machineA.memory ∧
      m'.programCounter = 20) ∧
    Task3.execute machineA 0x00003063 = some (Outcome.running machineA) :=
  ⟨(unrecognized_funct_effect machineA 0x02000033 16 rfl).1 (by decide),
   (unrecognized_funct_effect machineA 0x00003023 16 rfl).1 (by decide),
   (unrecognized_funct_effect machineA 0x00003003 16 rfl).1 (by decide),
   (unrecognized_funct_effect machineA 0x00003063 16 rfl).2 (by decide)⟩

/-! ## C17 -/

/-- C17: in the Task3 engine, for every 32-bit word with opcode 0x13,
funct3 = 0 (ADDI) and rd ≠ 0: rd becomes `(rs1 + imm) mod 2^32`, where the
I-format immediate `imm` lies in [-2048, 2047], is congruent modulo 4096 to
bits[31:20] of the word, and as a 32-bit pattern has its upper 20 bits all
equal to bit 31 of the word. -/
theorem addi_sign_extended_immediate (m : Machine) (w x : Nat)
    (hw : w < 4294967296) (hlock : LockInvariant m.registers)
    (hop : w &&& 0x7F = 0x13) (hf3 : funct3Of w = 0) (hrd : rdOf w ≠ 0)
    (hx : (m.registers (rs1Of w)).value = x) :
    ∃ m', Task3.execute m w = some (Outcome.running m') ∧
      ((m'.registers (rdOf w)).value : Int) = ((x : Int) + immI w) % 4294967296 ∧
      -2048 ≤ immI w ∧ immI w ≤ 2047 ∧
      (immI w - ((w >>> 20 : Nat) : Int)) % 4096 = 0 ∧
      ofInt (immI w) = (if w.testBit 31 then 0xFFFFF000 else 0) + (w >>> 20) % 4096 := by
  have hun := unlocked_of_invariant m.registers hlock w hrd
  have hI := immI_eq w hw
  refine ⟨advance m (writeRegister m.registers (rdOf w) (u32 (x + ofInt (immI w)))), ?_, ?_, ?_,
    ?_, ?_, ?_⟩
  · rw [execute_I m w hop]
    simp [Task3.processIType, hf3, readRegister, hx]
  · simp only [advance]
    rw [writeRegister_same _ _ _ hun]
    unfold u32 ofInt
    omega
  · rw [hI]; split <;> omega
  · rw [hI]; split <;> omega
  · rw [hI, Nat.shiftRight_eq_div_pow]
    norm_num
    split <;> omega
  · rw [hI, Nat.shiftRight_eq_div_pow, testBit_31 w hw]
    unfold ofInt
    by_cases h : 2147483648 ≤ w
    · simp only [h, if_true, decide_True]
      omega
    · simp only [h, if_false, decide_False]
      norm_num
      omega

theorem addi_sign_extended_immediate_witness :
    immI 0xFFF08193 = -1 ∧ rdOf 0xFFF08193 = 3 ∧
    (machineE.registers (rs1Of 0xFFF08193)).value = 0x80000001 ∧
    ∃ m', Task3.execute machineE 0xFFF08193 = some (Outcome.running m') ∧
      ((m'.registers 3).value : Int) = 0x80000000 := by
  obtain ⟨m1, h1, h2, _⟩ :=
    addi_sign_extended_immediate machineE 0xFFF08193 0x80000001 (by decide)
      (lockInvariant_regsOf _) (by decide) (by decide) (by decide) (by decide)
  exact ⟨by decide, by decide, by decide, m1, h1, h2.trans (by decide)⟩

/-! ## C18 -/

/-- C18: for every instruction word the S-format immediate of `processSType`
is `(bits[31:25] << 5) | bits[11:7]`, zero-extended: it lies in 0..4095; and a
store (SB, SH or SW) whose address `A = (rs1 + imm) mod 2^32` has
`A + 3 < 1048576` writes the low byte of rs2 at `A` and nothing outside
`A .. A + 3`, whether or not bit 31 of the word is set. -/
theorem store_immediate_zero_extended :
    (∀ w, immS w = (((w >>> 25) &&& 0x7F) <<< 5) ||| ((w >>> 7) &&& 0x1F) ∧
      immS w = 32 * (w / 33554432 % 128) + w / 128 % 32 ∧ immS w ≤ 4095) ∧
    (∀ (m : Machine) (w x A : Nat), w &&& 0x7F = 0x23 →
      (funct3Of w = 0 ∨ funct3Of w = 1 ∨ funct3Of w = 2) →
      (m.registers (rs1Of w)).value = x →
      (x + immS w) % 4294967296 = A → A + 3 < 1048576 →
      ∃ m', Task3.execute m w = some (Outcome.running m') ∧
        m'.memory A = (m.registers (rs2Of w)).value % 256 ∧
        ∀ j, (j < A ∨ A + 3 < j) → m'.memory j = m.memory j) := by
  constructor
  · intro w
    have hS := immS_eq w
    refine ⟨?_, hS, by rw [hS]; omega⟩
    have h1 : ((w >>> 25) &&& 0x7F) <<< 5 < 2 ^ 12 := by
      have : (w >>> 25) &&& 0x7F ≤ 0x7F := Nat.and_le_right
      rw [Nat.shiftLeft_eq]; omega
    have h2 : (w >>> 7) &&& 0x1F < 2 ^ 12 := by
      have : (w >>> 7) &&& 0x1F ≤ 0x1F := Nat.and_le_right
      omega
    have h := Nat.or_lt_two_pow h1 h2
    show u32 ((((w >>> 25) &&& 0x7F) <<< 5) ||| ((w >>> 7) &&& 0x1F)) = _
    unfold u32
    omega
  · intro m w x A hop hf3 hx hA hin
    have hadr : u32 ((m.registers (rs1Of w)).value + immS w) = A := by rw [hx]; exact hA
    have a0 : A < 1048576 := by omega
    have a1 : A + 1 < 1048576 := by omega
    have a2 : A + 2 < 1048576 := by omega
    have u1 : u32 (A + 1) = A + 1 := by unfold u32; omega
    have u2 : u32 (A + 2) = A + 2 := by unfold u32; omega
    have u3 : u32 (A + 3) = A + 3 := by unfold u32; omega
    rw [execute_S m w hop]
    rcases hf3 with h | h | h
    · refine ⟨_, by simp only [Task3.processSType, h, hadr]; rfl, ?_, ?_⟩
      · simp [and_255, storeByte]
      · intro j hj
        have : j ≠ A := by omega
        simp [this, storeByte]
    · refine ⟨_, by simp only [Task3.processSType, h, hadr, u1]; rfl, ?_, ?_⟩
      · simp [and_255, storeByte]
      · intro j hj
        have h0 : j ≠ A := by omega
        have h1 : j ≠ A + 1 := by omega
        simp [h0, h1, storeByte]
    · refine ⟨_, by simp only [Task3.processSType, h, hadr, u1, u2, u3]; rfl, ?_, ?_⟩
      · simp [and_255, storeByte]
      · intro j hj
        have h0 : j ≠ A := by omega
        have h1 : j ≠ A + 1 := by omega
        have h2 : j ≠ A + 2 := by omega
        have h3 : j ≠ A + 3 := by omega
        simp [h0, h1, h2, h3, storeByte]

theorem store_immediate_zero_extended_witness :
    Nat.testBit 0x80218023 31 = true ∧ immS 0x80218023 = 2048 ∧
    (machineE.registers (rs1Of 0x80218023)).value = 4 ∧
    ∃ m', Task3.execute machineE 0x80218023 = some (Outcome.running m') ∧
      m'.memory 2052 = 32 := by
  obtain ⟨m1, h1, h2, _⟩ :=
    store_immediate_zero_extended.2 machineE 0x80218023 4 2052 (by decide)
      (by decide) (by decide) (by decide) (by decide)
  exact ⟨by decide, by decide, by decide, m1, h1, h2.trans (by decide)⟩

/-! ## C19 -/

/-- C19 (counterexample): the B-type word 0x80000063 has bit 31 set and its
displacement computed by `processBType` is -65, which is odd. -/
theorem branch_displacement_odd :
    0x80000063 &&& 0x7F = 0x63 ∧ Nat.testBit 0x80000063 31 = true ∧
    immB 0x80000063 = -65 ∧ immB 0x80000063 % 2 = 1 :=
  ⟨by decide, by decide, by decide, by decide⟩

/-- C19 (amended): for every instruction word whose bit 31 is set, the branch
displacement computed by `processBType` is negative, between -65 and -2, and
its bit 0 is 0 exactly when bit 7 of the word is set. -/
theorem branch_displacement_negative (w : Nat) (h31 : w.testBit 31 = true) :
    immB w < 0 ∧ -65 ≤ immB w ∧ immB w ≤ -2 ∧ (immB w % 2 = 0 ↔ w.testBit 7 = true) := by
  rw [Nat.testBit_to_div_mod] at h31
  rw [Nat.testBit_to_div_mod]
  simp only [decide_eq_true_eq] at h31 ⊢
  have h : 64 ≤ w / 33554432 % 128 := by omega
  rw [immB_eq, if_pos h]
  omega

theorem branch_displacement_negative_witness :
    immB 0xFE000EE3 = -4 ∧
    (immB 0xFE000EE3 < 0 ∧ -65 ≤ immB 0xFE000EE3 ∧ immB 0xFE000EE3 ≤ -2 ∧
      (immB 0xFE000EE3 % 2 = 0 ↔ Nat.testBit 0xFE000EE3 7 = true)) :=
  ⟨by decide, branch_displacement_negative 0xFE000EE3 (by decide)⟩

/-! ## C20 -/

theorem bit30_set (w : Nat) (h : w &&& 0x40000000 ≠ 0) : w / 1073741824 % 2 = 1 := by
  have hm := and_mask_shift w 30 1
  have e : (2 ^ 1 - 1) <<< 30 = 0x40000000 := by decide
  rw [e] at hm
  rw [hm, Nat.shiftRight_eq_div_pow] at h
  have h1 : (w / 2 ^ 30) &&& (2 ^ 1 - 1) = w / 2 ^ 30 % 2 :=
    Nat.and_pow_two_sub_one_eq_mod _ 1
  rw [h1] at h
  rcases Nat.mod_two_eq_zero_or_one (w / 2 ^ 30) with h0 | h0
  · rw [h0] at h
    exact absurd rfl h
  · exact h0

/-- C20: in the Task3 engine every shift instruction uses only the low five
bits of its shift amount. For rd ≠ 0, `a` the 32-bit value of rs1 and `b` the
value of rs2, whatever it is (32 or more included): SLL sets rd to
`(a << (b & 0x1F)) mod 2^32`, and funct3 = 5 gives the logical shift
`a >> (b & 0x1F)` when funct7 = 0x00 and the arithmetic shift by `b & 0x1F`
(the floor of `a` as a signed value divided by `2^(b & 0x1F)`, as a 32-bit
pattern) when funct7 = 0x20. With `i` the decoded immediate as a 32-bit
pattern, whatever it is: SLLI sets rd to `(a << (i & 0x1F)) mod 2^32`, and
funct3 = 5 gives the logical shift by `i & 0x1F` when word bit 30 is clear and
the arithmetic shift by `i & 0x1F` when it is set. The decoded immediate of a
32-bit word with bit 30 set (every SRAI) is outside 0..31. -/
theorem shift_uses_low_five_bits (m : Machine) (w a : Nat)
    (hlock : LockInvariant m.registers) (hrd : rdOf w ≠ 0)
    (ha : (m.registers (rs1Of w)).value = a) (ha32 : a < 4294967296) :
    (∀ b, w &&& 0x7F = 0x33 → (m.registers (rs2Of w)).value = b →
      (funct3Of w = 1 →
        ∃ m', Task3.execute m w = some (Outcome.running m') ∧
          (m'.registers (rdOf w)).value = (a <<< (b &&& 0x1F)) % 4294967296) ∧
      (funct3Of w = 5 → funct7Of w = 0x00 →
        ∃ m', Task3.execute m w = some (Outcome.running m') ∧
          (m'.registers (rdOf w)).value = a >>> (b &&& 0x1F)) ∧
      (funct3Of w = 5 → funct7Of w = 0x20 →
        ∃ m', Task3.execute m w = some (Outcome.running m') ∧
          ((m'.registers (rdOf w)).value : Int) =
            (((a : Int) - (if 2147483648 ≤ a then 4294967296 else 0))
              / ((2 ^ (b &&& 0x1F) : Nat) : Int)) % 4294967296)) ∧
    (∀ i, w &&& 0x7F = 0x13 → ofInt (immI w) = i →
      (funct3Of w = 1 →
        ∃ m', Task3.execute m w = some (Outcome.running m') ∧
          (m'.registers (rdOf w)).value = (a <<< (i &&& 0x1F)) % 4294967296) ∧
      (funct3Of w = 5 → w &&& 0x40000000 = 0 →
        ∃ m', Task3.execute m w = some (Outcome.running m') ∧
          (m'.registers (rdOf w)).value = a >>> (i &&& 0x1F)) ∧
      (funct3Of w = 5 → w &&& 0x40000000 ≠ 0 →
        ∃ m', Task3.execute m w = some (Outcome.running m') ∧
          ((m'.registers (rdOf w)).value : Int) =
            (((a : Int) - (if 2147483648 ≤ a then 4294967296 else 0))
              / ((2 ^ (i &&& 0x1F) : Nat) : Int)) % 4294967296)) ∧
    (w < 4294967296 → w &&& 0x40000000 ≠ 0 → immI w < 0 ∨ 32 ≤ immI w) := by
  have hun := unlocked_of_invariant m.registers hlock w hrd
  refine ⟨?_, ?_, ?_⟩
  · intro b hop hb
    refine ⟨?_, ?_, ?_⟩
    · intro h3
      refine ⟨advance m (writeRegister m.registers (rdOf w) (shl32 a (b : Int))), ?_, ?_⟩
      · rw [execute_R m w hop]
        simp [Task3.processRType, h3, readRegister, ha, hb]
      · simp only [advance]
        rw [writeRegister_same _ _ _ hun]
        simp only [shl32, u32, count_low_bits_nat]
    · intro h3 h7
      refine ⟨advance m (writeRegister m.registers (rdOf w) (shr32 a (b : Int))), ?_, ?_⟩
      · rw [execute_R m w hop]
        simp [Task3.processRType, h3, h7, readRegister, ha, hb]
      · simp only [advance]
        rw [writeRegister_same _ _ _ hun]
        simp only [shr32, count_low_bits_nat]
    · intro h3 h7
      refine ⟨advance m (writeRegister m.registers (rdOf w) (sar32 (i32 a) (b : Int))), ?_, ?_⟩
      · rw [execute_R m w hop]
        simp [Task3.processRType, h3, h7, readRegister, ha, hb]
      · simp only [advance]
        rw [writeRegister_same _ _ _ hun]
        simp only [sar32, count_low_bits_nat]
        rw [ofInt_cast, i32_eq a ha32, Int.shiftRight_eq_div_pow]
  · intro i hop hi
    refine ⟨?_, ?_, ?_⟩
    · intro h3
      refine ⟨advance m (writeRegister m.registers (rdOf w) (shl32 a (immI w))), ?_, ?_⟩
      · rw [execute_I m w hop]
        simp [Task3.processIType, h3, readRegister, ha]
      · simp only [advance]
        rw [writeRegister_same _ _ _ hun]
        simp only [shl32, u32, count_low_bits, hi]
    · intro h3 h30
      refine ⟨advance m (writeRegister m.registers (rdOf w) (shr32 a (immI w))), ?_, ?_⟩
      · rw [execute_I m w hop]
        simp [Task3.processIType, h3, h30, readRegister, ha]
      · simp only [advance]
        rw [writeRegister_same _ _ _ hun]
        simp only [shr32, count_low_bits, hi]
    · intro h3 h30
      refine ⟨advance m (writeRegister m.registers (rdOf w) (sar32 (i32 a) (immI w))), ?_, ?_⟩
      · rw [execute_I m w hop]
        simp [Task3.processIType, h3, h30, readRegister, ha]
      · simp only [advance]
        rw [writeRegister_same _ _ _ hun]
        simp only [sar32, count_low_bits, hi]
        rw [ofInt_cast, i32_eq a ha32, Int.shiftRight_eq_div_pow]
  · intro hw h30
    have hb := bit30_set w h30
    rw [immI_eq w hw]
    split <;> omega

theorem shift_uses_low_five_bits_witness :
    (machineE.registers 1).value = 0x80000001 ∧ (machineE.registers 2).value = 32 ∧
    (machineE.registers 3).value = 4 ∧
    (∃ m', Task3.execute machineE 0x002091B3 = some (Outcome.running m') ∧
      (m'.registers 3).value = 0x80000001) ∧
    (∃ m', Task3.execute machineE 0x0030D233 = some (Outcome.running m') ∧
      (m'.registers 4).value = 0x08000000) ∧
    (∃ m', Task3.execute machineE 0x4030D233 = some (Outcome.running m') ∧
      ((m'.registers 4).value : Int) = 0xF8000000) ∧
    immI 0x4010D193 = 1025 ∧
    (∃ m', Task3.execute machineE 0x4010D193 = some (Outcome.running m') ∧
      ((m'.registers 3).value : Int) = 0xC0000000) ∧
    (∃ m', Task3.execute machineE 0x0240D213 = some (Outcome.running m') ∧
      (m'.registers 4).value = 0x08000000) := by
  obtain ⟨h1, _, _⟩ :=
    (shift_uses_low_five_bits machineE 0x002091B3 0x80000001 (lockInvariant_regsOf _)
      (by decide) (by decide) (by decide)).1 32 (by decide) (by decide)
  obtain ⟨_, h2, _⟩ :=
    (shift_uses_low_five_bits machineE 0x0030D233 0x80000001 (lockInvariant_regsOf _)
      (by decide) (by decide) (by decide)).1 4 (by decide) (by decide)
  obtain ⟨_, _, h3⟩ :=
    (shift_uses_low_five_bits machineE 0x4030D233 0x80000001 (lockInvariant_regsOf _)
      (by decide) (by decide) (by decide)).1 4 (by decide) (by decide)
  obtain ⟨_, _, h4⟩ :=
    (shift_uses_low_five_bits machineE 0x4010D193 0x80000001 (lockInvariant_regsOf _)
      (by decide) (by decide) (by decide)).2.1 1025 (by decide) (by decide)
  obtain ⟨_, h5, _⟩ :=
    (shift_uses_low_five_bits machineE 0x0240D213 0x80000001 (lockInvariant_regsOf _)
      (by decide) (by decide) (by decide)).2.1 36 (by decide) (by decide)
  obtain ⟨m1, e1, v1⟩ := h1 (by decide)
  obtain ⟨m2, e2, v2⟩ := h2 (by decide) (by decide)
  obtain ⟨m3, e3, v3⟩ := h3 (by decide) (by decide)
  obtain ⟨m4, e4, v4⟩ := h4 (by decide) (by decide)
  obtain ⟨m5, e5, v5⟩ := h5 (by decide) (by decide)
  exact ⟨by decide, by decide, by decide, ⟨m1, e1, v1.trans (by decide)⟩,
    ⟨m2, e2, v2.trans (by decide)⟩, ⟨m3, e3, v3.trans (by decide)⟩, by decide,
    ⟨m4, e4, v4.trans (by decide)⟩, ⟨m5, e5, v5.trans (by decide)⟩⟩

/-! ## C21 -/

/-- C21: in the Task3 engine, for every store whose effective address
`A = (rs1 + S-immediate) mod 2^32` has `A + width - 1 < 1048576`, with `v`
the value of rs2: SB sets `memory[A]` to bits 7:0 of `v`, SH sets `memory[A]`,
`memory[A+1]` to bits 7:0, 15:8, SW sets `memory[A..A+3]` to the four bytes of
`v` in little-endian order; every other memory byte and the whole register
file (values and lock flags) are unchanged, and the program counter becomes
`(p + 4) mod 2^32`, which is `p + 4` whenever that is a 32-bit value. -/
theorem store_bytes_and_frame (m : Machine) (w p A v : Nat)
    (hop : w &&& 0x7F = 0x23)
    (hp : m.programCounter = p)
    (hA : ((m.registers (rs1Of w)).value + immS w) % 4294967296 = A)
    (hv : (m.registers (rs2Of w)).value = v) :
    (funct3Of w = 0 → A < 1048576 →
      ∃ m', Task3.execute m w = some (Outcome.running m') ∧
        m'.memory A = v % 256 ∧
        (∀ j, j ≠ A → m'.memory j = m.memory j) ∧
        m'.registers = m.registers ∧ m'.programCounter = (p + 4) % 4294967296) ∧
    (funct3Of w = 1 → A + 1 < 1048576 →
      ∃ m', Task3.execute m w = some (Outcome.running m') ∧
        m'.memory A = v % 256 ∧ m'.memory (A + 1) = v / 256 % 256 ∧
        (∀ j, j ≠ A → j ≠ A + 1 → m'.memory j = m.memory j) ∧
        m'.registers = m.registers ∧ m'.programCounter = (p + 4) % 4294967296) ∧
    (funct3Of w = 2 → A + 3 < 1048576 →
      ∃ m', Task3.execute m w = some (Outcome.running m') ∧
        m'.memory A = v % 256 ∧ m'.memory (A + 1) = v / 256 % 256 ∧
        m'.memory (A + 2) = v / 65536 % 256 ∧ m'.memory (A + 3) = v / 16777216 % 256 ∧
        (∀ j, j ≠ A → j ≠ A + 1 → j ≠ A + 2 → j ≠ A + 3 → m'.memory j = m.memory j) ∧
        m'.registers = m.registers ∧ m'.programCounter = (p + 4) % 4294967296) ∧
    (p + 4 < 4294967296 → (p + 4) % 4294967296 = p + 4) := by
  have hadr : u32 ((m.registers (rs1Of w)).value + immS w) = A := hA
  have hpc : u32 (m.programCounter + 4) = (p + 4) % 4294967296 := by rw [hp]; rfl
  rw [execute_S m w hop]
  refine ⟨?_, ?_, ?_, fun h => Nat.mod_eq_of_lt h⟩
  · intro h a0
    refine ⟨{ registers := m.registers, programCounter := u32 (m.programCounter + 4),
              memory := fun j => if j = A then (v &&& 0xFF) % 256 else m.memory j },
      by simp only [Task3.processSType, h, hadr, hv]; rfl, ?_, ?_, rfl, hpc⟩
    · simp [and_255]
    · intro j hj
      simp [hj]
  · intro h a1
    have a0 : A < 1048576 := by omega
    have u1 : u32 (A + 1) = A + 1 := by unfold u32; omega
    refine ⟨{ registers := m.registers, programCounter := u32 (m.programCounter + 4),
              memory := fun j => if j = A + 1 then ((v >>> 8) &&& 0xFF) % 256
                else if j = A then (v &&& 0xFF) % 256 else m.memory j },
      by simp only [Task3.processSType, h, hadr, hv, u1]; rfl,
      ?_, ?_, ?_, rfl, hpc⟩
    · simp [and_255]
    · simp [and_255, Nat.shiftRight_eq_div_pow]
    · intro j h0 h1
      simp [h0, h1]
  · intro h a3
    have a0 : A < 1048576 := by omega
    have a1 : A + 1 < 1048576 := by omega
    have a2 : A + 2 < 1048576 := by omega
    have u1 : u32 (A + 1) = A + 1 := by unfold u32; omega
    have u2 : u32 (A + 2) = A + 2 := by unfold u32; omega
    have u3 : u32 (A + 3) = A + 3 := by unfold u32; omega
    refine ⟨{ registers := m.registers, programCounter := u32 (m.programCounter + 4),
              memory := fun j => if j = A + 3 then ((v >>> 24) &&& 0xFF) % 256
                else if j = A + 2 then ((v >>> 16) &&& 0xFF) % 256
                else if j = A + 1 then ((v >>> 8) &&& 0xFF) % 256
                else if j = A then (v &&& 0xFF) % 256 else m.memory j },
      by simp only [Task3.processSType, h, hadr, hv, u1, u2, u3]; rfl,
      ?_, ?_, ?_, ?_, ?_, rfl, hpc⟩
    · simp [and_255]
    · simp [and_255, Nat.shiftRight_eq_div_pow]
    · simp [and_255, Nat.shiftRight_eq_div_pow]
    · simp [and_255, Nat.shiftRight_eq_div_pow]
    · intro j h0 h1 h2 h3
      simp [h0, h1, h2, h3]

theorem store_bytes_and_frame_witness :
    (∃ m', Task3.execute machineC 0x00110423 = some (Outcome.running m') ∧
      m'.memory 264 = 0xEF ∧ m'.memory 265 = 0 ∧ m'.registers = machineC.registers) ∧
    (∃ m', Task3.execute machineC 0x00111423 = some (Outcome.running m') ∧
      m'.memory 264 = 0xEF ∧ m'.memory 265 = 0xBE ∧ m'.memory 266 = 0) ∧
    (∃ m', Task3.execute machineC 0x00112423 = some (Outcome.running m') ∧
      m'.memory 264 = 0xEF ∧ m'.memory 265 = 0xBE ∧ m'.memory 266 = 0xAD ∧
      m'.memory 267 = 0xDE ∧ m'.memory 268 = 0 ∧ m'.programCounter = 4) := by
  obtain ⟨m1, e1, a1, f1, r1, _⟩ :=
    (store_bytes_and_frame machineC 0x00110423 0 264 0xDEADBEEF (by decide) rfl (by decide)
      (by decide)).1 (by decide) (by decide)
  obtain ⟨m2, e2, a2, b2, f2, _⟩ :=
    (store_bytes_and_frame machineC 0x00111423 0 264 0xDEADBEEF (by decide) rfl (by decide)
      (by decide)).2.1 (by decide) (by decide)
  obtain ⟨m3, e3, a3, b3, c3, d3, f3, _, p3⟩ :=
    (store_bytes_and_frame machineC 0x00112423 0 264 0xDEADBEEF (by decide) rfl (by decide)
      (by decide)).2.2.1 (by decide) (by decide)
  exact ⟨⟨m1, e1, a1, (f1 265 (by decide)).trans rfl, r1⟩,
    ⟨m2, e2, a2, b2, (f2 266 (by decide) (by decide)).trans rfl⟩,
    ⟨m3, e3, a3, b3, c3, d3,
      (f3 268 (by decide) (by decide) (by decide) (by decide)).trans rfl, p3⟩⟩

/-! ## C22 -/

theorem execute_memory (m : Machine) (w : Nat) (o : Outcome)
    (hop : w &&& 0x7F ≠ 0x23) (h : Task3.execute m w = some o) :
    (Outcome.machine o).memory = m.memory := by
  unfold Task3.execute at h
  split at h
  all_goals simp only [Option.map_eq_some', Option.some.injEq] at h
  case h_3 hh => exact absurd hh hop
  case h_5 => subst h; rfl
  case h_11 => subst h; rfl
  all_goals obtain ⟨m1, hm1, rfl⟩ := h
  all_goals simp only [Outcome.machine]
  · unfold Task3.processRType at hm1
    simp only [Option.some.injEq] at hm1
    subst hm1; rfl
  · unfold Task3.processIType at hm1
    simp only [Option.some.injEq] at hm1
    subst hm1; rfl
  · unfold Task3.processUType at hm1
    split at hm1 <;> simp only [Option.some.injEq] at hm1 <;> subst hm1 <;> rfl
  · unfold Task3.processUType at hm1
    split at hm1 <;> simp only [Option.some.injEq] at hm1 <;> subst hm1 <;> rfl
  · unfold Task3.processBType at hm1
    dsimp only at hm1
    split at hm1 <;> simp only [Option.some.injEq] at hm1 <;> subst hm1 <;> rfl
  · simp only [Task3.processJALType, Option.some.injEq] at hm1
    subst hm1; rfl
  · simp only [Task3.processJALRType, Option.some.injEq] at hm1
    subst hm1; rfl
  · unfold Task3.processLType at hm1
    simp only [Option.some.injEq] at hm1
    subst hm1; rfl

/-- C22: in the Task3 engine, for every state and every instruction word whose
opcode is not 0x23, one engine step has a result, and in it every byte of data
memory is as it was before the step; this covers every load (whatever its
address), every ALU instruction (whatever its shift amount), every branch and
every jump. -/
theorem memory_unchanged_unless_store (m : Machine) (w : Nat) (hop : w &&& 0x7F ≠ 0x23) :
    ∃ o, Task3.execute m w = some o ∧ (Outcome.machine o).memory = m.memory := by
  obtain ⟨o, ho⟩ := execute_defined m w
  exact ⟨o, ho, execute_memory m w o hop ho⟩

theorem memory_unchanged_unless_store_witness :
    (∃ o, Task3.execute machineD 0x00800083 = some o ∧
      (Outcome.machine o).memory = machineD.memory) ∧
    (∃ o, Task3.execute machineE 0x4010D193 = some o ∧
      (Outcome.machine o).memory = machineE.memory) ∧
    (∃ o, Task3.execute machineG 0x0000A183 = some o ∧
      (Outcome.machine o).memory = machineG.memory) :=
  ⟨memory_unchanged_unless_store machineD 0x00800083 (by decide),
   memory_unchanged_unless_store machineE 0x4010D193 (by decide),
   memory_unchanged_unless_store machineG 0x0000A183 (by decide)⟩

/-! ## C23 -/

/-- C23: with the program image a byte sequence `b` of length `L`, the fetch
at program counter `pc` yields `b[pc] + 256*b[pc+1] + 65536*b[pc+2] +
16777216*b[pc+3]` when `pc + 4 ≤ L`; otherwise it yields nothing and the
loop (of either engine) ends there with the state unchanged, in particular
whenever `pc` is at or past the end of the image. -/
theorem fetch_word_or_end (image : List Nat) (pc : Nat)
    (hbytes : ∀ i, i < image.length → image.getD i 0 < 256) :
    (pc + 4 ≤ image.length →
      fetch image pc = some (image.getD pc 0 + 256 * image.getD (pc + 1) 0
        + 65536 * image.getD (pc + 2) 0 + 16777216 * image.getD (pc + 3) 0)) ∧
    (¬ pc + 4 ≤ image.length →
      fetch image pc = none ∧
      ∀ (execute : Machine → Nat → Option Outcome) (fuel k : Nat) (m : Machine),
        m.programCounter = pc → runLoop execute image (fuel + 1) m k = RunResult.done m k) ∧
    (image.length ≤ pc → fetch image pc = none) := by
  refine ⟨?_, ?_, ?_⟩
  · intro h
    have b0 := hbytes pc (by omega)
    have b1 := hbytes (pc + 1) (by omega)
    have b2 := hbytes (pc + 2) (by omega)
    have b3 := hbytes (pc + 3) (by omega)
    simp only [fetch, if_pos h, byteAt, Nat.mod_eq_of_lt b0, Nat.mod_eq_of_lt b1,
      Nat.mod_eq_of_lt b2, Nat.mod_eq_of_lt b3]
  · intro h
    have hf : fetch image pc = none := by simp only [fetch, if_neg h]
    refine ⟨hf, ?_⟩
    intro execute fuel k m hm
    simp only [runLoop, hm, hf]
  · intro h
    have : ¬ pc + 4 ≤ image.length := by omega
    simp only [fetch, if_neg this]

theorem fetch_word_or_end_witness :
    fetch straightImage 4 = some 0x001080B3 ∧ fetch straightImage 8 = none ∧
    fetch straightImage 10 = none :=
  ⟨((fetch_word_or_end straightImage 4 (by decide)).1 (by decide)).trans (by decide),
   ((fetch_word_or_end straightImage 8 (by decide)).2.1 (by decide)).1,
   (fetch_word_or_end straightImage 10 (by decide)).2.2 (by decide)⟩

/-! ## C24 -/

theorem canonicalImmB_eq (w : Nat) :
    canonicalImmB w =
      ((2 * (w / 128 / 2 % 16) + 32 * (w / 33554432 % 64) + 2048 * (w / 128 % 2) : Nat) : Int)
        - 4096 * ((w / 33554432 / 64 % 2 : Nat) : Int) := by
  unfold canonicalImmB
  rw [show w / 256 = w / 128 / 2 from by rw [Nat.div_div_eq_div_mul],
    show w / 2147483648 = w / 33554432 / 64 from by rw [Nat.div_div_eq_div_mul]]

/-- C24: for every instruction word whose canonical RV32I branch displacement
`d` satisfies `-64 ≤ d ≤ 2046`, the displacement computed by `processBType`
equals `d`. -/
theorem legacy_branch_displacement_agrees (w : Nat)
    (hlo : -64 ≤ canonicalImmB w) (hhi : canonicalImmB w ≤ 2046) :
    immB w = canonicalImmB w := by
  rw [canonicalImmB_eq] at hlo hhi ⊢
  rw [immB_eq]
  generalize w / 128 = t at *
  generalize w / 33554432 = s at *
  have h31 : s / 64 % 2 = 0 ∨ s / 64 % 2 = 1 := by omega
  have h7 : t % 2 = 0 ∨ t % 2 = 1 := by omega
  have h25 : s % 2 = 0 ∨ s % 2 = 1 := by omega
  rcases h31 with h31 | h31 <;> rcases h7 with h7 | h7 <;> rcases h25 with h25 | h25 <;>
    split <;> omega

theorem legacy_branch_displacement_agrees_witness :
    canonicalImmB 0xFE000EE3 = -4 ∧ immB 0xFE000EE3 = -4 ∧
    canonicalImmB 0xFC0000E3 = -64 ∧ immB 0xFC0000E3 = -64 ∧
    canonicalImmB 0x7E000F63 = 2046 ∧ immB 0x7E000F63 = 2046 :=
  ⟨by decide,
   (legacy_branch_displacement_agrees 0xFE000EE3 (by decide) (by decide)).trans (by decide),
   by decide,
   (legacy_branch_displacement_agrees 0xFC0000E3 (by decide) (by decide)).trans (by decide),
   by decide,
   (legacy_branch_displacement_agrees 0x7E000F63 (by decide) (by decide)).trans (by decide)⟩

/-! ## C25 -/

theorem bit31_high_chunk (w : Nat) (h31 : w.testBit 31 = true) : 64 ≤ w / 33554432 % 128 := by
  rw [Nat.testBit_to_div_mod] at h31
  simp only [decide_eq_true_eq] at h31
  omega

theorem immB_bounds (w : Nat) : -65 ≤ immB w ∧ immB w ≤ 2047 := by
  rw [immB_eq]
  split <;> omega

/-- C25: for every instruction word with bit 31 set, the displacement computed
by `processBType` equals `((flat & 0x3F) | 0xFFFFFFC0) - 1` read as a signed
32-bit integer, where `flat = (bits[31:25] << 5) | bits[11:7]`; it lies in
`[-65, -2]` and is the same for any two such words that agree on bit 25 and
bits 11:7 (so it does not depend on bits 30:26). When such a word is a B-type
instruction whose branch is taken at a program counter `p ≥ 65`, the next
program counter is `p` plus that displacement, between 2 and 65 bytes back;
and for every B-type word whatever, taken or not, at a program counter at
least 2048 below `2^32` the next program counter is never more than 65 bytes
below the old one. -/
theorem negative_branch_displacement_closed_form (w : Nat) (h31 : w.testBit 31 = true) :
    immB w = (((immS w &&& 0x3F) ||| 0xFFFFFFC0 : Nat) : Int) - 4294967296 - 1 ∧
    -65 ≤ immB w ∧ immB w ≤ -2 ∧
    (∀ w' : Nat, w'.testBit 31 = true → w' / 33554432 % 2 = w / 33554432 % 2 →
      w' / 128 % 32 = w / 128 % 32 → immB w' = immB w) ∧
    (∀ m : Machine, w &&& 0x7F = 0x63 → 65 ≤ m.programCounter →
      m.programCounter < 4294967296 →
      Task3.branchCondition (funct3Of w) (m.registers (rs1Of w)).value
        (m.registers (rs2Of w)).value = some true →
      ∃ m', Task3.execute m w = some (Outcome.running m') ∧
        (m'.programCounter : Int) = (m.programCounter : Int) + immB w ∧
        m.programCounter ≤ m'.programCounter + 65 ∧
        m'.programCounter + 2 ≤ m.programCounter) ∧
    (∀ (m m' : Machine) (u : Nat), u &&& 0x7F = 0x63 →
      m.programCounter + 2048 ≤ 4294967296 →
      Task3.execute m u = some (Outcome.running m') →
      m.programCounter ≤ m'.programCounter + 65) := by
  have h := bit31_high_chunk w h31
  have hS := immS_eq w
  have h63 : immS w &&& 0x3F = immS w % 64 := Nat.and_pow_two_sub_one_eq_mod _ 6
  have hor := or_high_mask (immS w % 64) (by omega)
  have hlo : -65 ≤ immB w := by
    rw [immB_eq, if_pos h]
    omega
  have hhi : immB w ≤ -2 := by
    rw [immB_eq, if_pos h]
    omega
  refine ⟨?_, hlo, hhi, ?_, ?_, ?_⟩
  · rw [h63, hor, immB_eq, if_pos h, hS]
    omega
  · intro w' h31' h25 h7
    have h' := bit31_high_chunk w' h31'
    rw [immB_eq, immB_eq, if_pos h, if_pos h', h7]
    clear h31 h31' hS h63 hor h h' h7 hlo hhi
    generalize w' / 33554432 = s' at *
    generalize w / 33554432 = s at *
    generalize w / 128 % 32 = x at *
    omega
  · intro m hop h65 hpc hc
    have hpc' : u32 (m.programCounter + ofInt (immB w))
        = ((m.programCounter : Int) + immB w).toNat := by
      rw [u32_add_ofInt]
      omega
    refine ⟨{ registers := m.registers,
              programCounter := u32 (m.programCounter + ofInt (immB w)),
              memory := m.memory }, ?_, ?_, ?_, ?_⟩
    · rw [execute_B m w hop]
      simp only [Task3.processBType, hc, Option.map_some']
    · simp only [hpc']
      omega
    · simp only [hpc']
      omega
    · simp only [hpc']
      omega
  · intro m m' u hu hpc he
    rw [execute_B m u hu] at he
    simp only [Option.map_eq_some', Outcome.running.injEq] at he
    obtain ⟨m1, hm1, rfl⟩ := he
    have hb := immB_bounds u
    unfold Task3.processBType at hm1
    dsimp only at hm1
    split at hm1 <;> simp only [Option.some.injEq] at hm1 <;> subst hm1
    · simp only [u32_add_ofInt]
      omega
    · simp only [advance, u32]
      omega
    · omega

theorem negative_branch_displacement_closed_form_witness :
    immB 0xFE000EE3 = -4 ∧ immB 0x82000EE3 = -4 ∧
    (∃ m', Task3.execute machineF 0xFE000EE3 = some (Outcome.running m') ∧
      m'.programCounter = 96) := by
  obtain ⟨h1, _, _, h4, h5, _⟩ :=
    negative_branch_displacement_closed_form 0xFE000EE3 (by decide)
  have e : immB 0xFE000EE3 = -4 := h1.trans (by decide)
  obtain ⟨m', he, hp, _, _⟩ := h5 machineF (by decide) (by decide) (by decide) (by decide)
  refine ⟨e, (h4 0x82000EE3 (by decide) (by decide) (by decide)).trans e, m', he, ?_⟩
  rw [e] at hp
  have hF : machineF.programCounter = 100 := rfl
  rw [hF] at hp
  omega

/-! ## C26 -/

theorem writeRegister_eq_assignValue (r : Nat → Register) (n : Nat) (h : (r n).locked = 0) :
    writeRegister r n = assignValue r n := by
  funext v
  simp only [writeRegister, if_pos h]
  rfl

/-- C26: for every state whose lock flags are those set by
`initializeRegisters` (x0 locked, x1..x31 unlocked) and every word that is
R-type, I-type, LUI, AUIPC, JAL or JALR with `rd ≠ 0`, or B-type with any
fields, one step of the Task2 engine and one step of the Task3 engine give
the same result: the same register values, the same next program counter
(and the same lock flags and memory). -/
theorem task2_task3_agree (m : Machine) (w : Nat)
    (hlock : (m.registers 0).locked = 1 ∧ ∀ i, 1 ≤ i → i ≤ 31 → (m.registers i).locked = 0) :
    ((w &&& 0x7F = 0x33 ∨ w &&& 0x7F = 0x13 ∨ w &&& 0x7F = 0x37 ∨ w &&& 0x7F = 0x17 ∨
        w &&& 0x7F = 0x6F ∨ w &&& 0x7F = 0x67) → rdOf w ≠ 0 →
      Task2.execute m w = Task3.execute m w) ∧
    (w &&& 0x7F = 0x63 → Task2.execute m w = Task3.execute m w) := by
  constructor
  · intro hop hrd
    have hun := hlock.2 (rdOf w) (Nat.pos_of_ne_zero hrd) (rdOf_le w)
    have hw := writeRegister_eq_assignValue m.registers (rdOf w) hun
    rcases hop with h | h | h | h | h | h
    · simp only [Task2.execute, Task3.execute, h, Task2.processRType, Task3.processRType,
        readRegister, hw]
    · simp only [Task2.execute, Task3.execute, h, Task2.processIType, Task3.processIType,
        readRegister, hw]
    · simp only [Task2.execute, Task3.execute, h, Task2.processUType, Task3.processUType, hw]
    · simp only [Task2.execute, Task3.execute, h, Task2.processUType, Task3.processUType, hw]
    · simp only [Task2.execute, Task3.execute, h, Task2.processJALType, Task3.processJALType, hw]
    · simp only [Task2.execute, Task3.execute, h, Task2.processJALRType, Task3.processJALRType,
        hw]
  · intro h
    simp only [Task2.execute, Task3.execute, h, Task2.processBType, Task3.processBType]

theorem task2_task3_agree_witness :
    Task2.execute machineA 0x002081B3 = Task3.execute machineA 0x002081B3 ∧
    Task2.execute machineA 0x006080E7 = Task3.execute machineA 0x006080E7 ∧
    Task2.execute machineA 0xFE000EE3 = Task3.execute machineA 0xFE000EE3 ∧
    (∃ m', Task3.execute machineA 0x002081B3 = some (Outcome.running m') ∧
      (m'.registers 3).value = 1 ∧ m'.programCounter = 20) :=
  ⟨(task2_task3_agree machineA 0x002081B3
      ⟨(lockInvariant_regsOf _).2.1, (lockInvariant_regsOf _).2.2⟩).1 (by decide) (by decide),
   (task2_task3_agree machineA 0x006080E7
      ⟨(lockInvariant_regsOf _).2.1, (lockInvariant_regsOf _).2.2⟩).1 (by decide) (by decide),
   (task2_task3_agree machineA 0xFE000EE3
      ⟨(lockInvariant_regsOf _).2.1, (lockInvariant_regsOf _).2.2⟩).2 (by decide),
   ⟨_, rfl, by decide, rfl⟩⟩

/-! ## C27 -/

theorem fetch_some_of_lt (image : List Nat) (j : Nat) (h : j < image.length / 4) :
    ∃ w, fetch image (4 * j) = some w := by
  have : 4 * j + 4 ≤ image.length := by omega
  simp only [fetch, if_pos this]
  exact ⟨_, rfl⟩

theorem fetch_none_at_end (image : List Nat) : fetch image (4 * (image.length / 4)) = none := by
  have : ¬ 4 * (image.length / 4) + 4 ≤ image.length := by omega
  simp only [fetch, if_neg this]

theorem straight_opcodes (w : Nat)
    (h : w &&& 0x7F = 0x33 ∨ w &&& 0x7F = 0x13 ∨ w &&& 0x7F = 0x37 ∨ w &&& 0x7F = 0x17) :
    w &&& 0x7F = 0x33 ∨ w &&& 0x7F = 0x13 ∨ w &&& 0x7F = 0x23 ∨ w &&& 0x7F = 0x03 ∨
      w &&& 0x7F = 0x37 ∨ w &&& 0x7F = 0x17 := by
  rcases h with h | h | h | h
  · exact Or.inl h
  · exact Or.inr (Or.inl h)
  · exact Or.inr (Or.inr (Or.inr (Or.inr (Or.inl h))))
  · exact Or.inr (Or.inr (Or.inr (Or.inr (Or.inr h))))

theorem runLoop_straight (image : List Nat) (hL : image.length ≤ 1048576)
    (hops : StraightLine image) :
    ∀ n j fuel (m : Machine) k, m.programCounter = 4 * j → j + n = image.length / 4 →
      n < fuel →
      ∃ m', runLoop Task3.execute image fuel m k = RunResult.done m' (k + n) ∧
        m'.programCounter = 4 * (image.length / 4) := by
  intro n
  induction n with
  | zero =>
    intro j fuel m k hpc hj hf
    obtain ⟨f, rfl⟩ : ∃ f, fuel = f + 1 := ⟨fuel - 1, by omega⟩
    have hj' : j = image.length / 4 := by omega
    refine ⟨m, ?_, by rw [hpc, hj']⟩
    have hfn : fetch image m.programCounter = none := by
      rw [hpc, hj']; exact fetch_none_at_end image
    simp only [runLoop, hfn, Nat.add_zero]
  | succ n ih =>
    intro j fuel m k hpc hj hf
    obtain ⟨f, rfl⟩ : ∃ f, fuel = f + 1 := ⟨fuel - 1, by omega⟩
    have hjlt : j < image.length / 4 := by omega
    obtain ⟨w, hw⟩ := fetch_some_of_lt image j hjlt
    have hop := straight_opcodes w (hops j hjlt w hw)
    rw [← hpc] at hw
    obtain ⟨o, he⟩ := execute_defined m w
    obtain ⟨m1, rfl, hpc1⟩ := execute_advances_pc m w o hop he
    have hpc1' : m1.programCounter = 4 * (j + 1) := by
      rw [hpc1, hpc]; unfold u32; omega
    obtain ⟨m', h, hp'⟩ := ih (j + 1) f m1 (k + 1) hpc1' (by omega) (by omega)
    simp only [runLoop, hw, he]
    exact ⟨m', by rw [h]; congr 1; omega, hp'⟩

theorem stepN_straight (image : List Nat) (hL : image.length ≤ 1048576)
    (hops : StraightLine image) :
    ∀ n j (m : Machine), m.programCounter = 4 * j → j + n ≤ image.length / 4 →
      ∃ m', Task3.stepN image n m = some (Outcome.running m') ∧
        m'.programCounter = 4 * (j + n) := by
  intro n
  induction n with
  | zero =>
    intro j m hpc _
    exact ⟨m, rfl, by rw [hpc]; rfl⟩
  | succ n ih =>
    intro j m hpc hj
    have hjlt : j < image.length / 4 := by omega
    obtain ⟨w, hw⟩ := fetch_some_of_lt image j hjlt
    have hop := straight_opcodes w (hops j hjlt w hw)
    rw [← hpc] at hw
    obtain ⟨o, he⟩ := execute_defined m w
    obtain ⟨m1, rfl, hpc1⟩ := execute_advances_pc m w o hop he
    have hpc1' : m1.programCounter = 4 * (j + 1) := by
      rw [hpc1, hpc]; unfold u32; omega
    obtain ⟨m', h, hp'⟩ := ih (j + 1) m1 hpc1' (by omega)
    refine ⟨m', ?_, by rw [hp']; omega⟩
    simp only [Task3.stepN, Task3.step, hw, he]
    exact h

theorem main_eq_runLoop (image : List Nat) (hL : image.length ≤ 1048576) (fuel : Nat) :
    Task3.main image fuel = runLoop Task3.execute image fuel (loadedMachine image) 0 := by
  have h : ¬ image.length > MEMORY_SIZE := by unfold MEMORY_SIZE; omega
  simp only [Task3.main, Task3.loadInstructions, if_neg h, loadedMachine]

theorem oversize_length : oversizeImage.length = 1048580 := by
  unfold oversizeImage
  exact List.length_replicate _ _

theorem byteAt_oversize (i : Nat) (h : i < 1048580) : byteAt oversizeImage i = 0x33 := by
  unfold byteAt oversizeImage
  rw [List.getD_eq_getElem?_getD, List.getElem?_replicate_of_lt h]
  rfl

theorem main_oversize (image : List Nat) (h : image.length > MEMORY_SIZE) (fuel : Nat) :
    Task3.main image fuel = RunResult.undefined := by
  simp only [Task3.main, Task3.loadInstructions, if_pos h]

/-- C27 (counterexample): the image of 1048580 bytes 0x33 has opcode 0x33 at
every word offset, yet the Task3 engine does not execute its 262145 words and
stop at the end of the stream: `loadInstructions` rejects an image larger than
`MEMORY_SIZE` and closes the file, and the loop of `main` then reads from the
closed file, so the run is undefined however long it is allowed to go on. -/
theorem oversize_image_undefined :
    oversizeImage.length = 1048580 ∧ StraightLine oversizeImage ∧
    ∀ fuel, Task3.main oversizeImage fuel = RunResult.undefined := by
  refine ⟨oversize_length, ?_, ?_⟩
  · intro k hk w hw
    rw [oversize_length] at hk
    have h4 : 4 * k + 4 ≤ oversizeImage.length := by rw [oversize_length]; omega
    simp only [fetch, if_pos h4, Option.mem_def, Option.some.injEq] at hw
    rw [byteAt_oversize _ (by omega), byteAt_oversize _ (by omega),
      byteAt_oversize _ (by omega), byteAt_oversize _ (by omega)] at hw
    subst hw
    decide
  · intro fuel
    have h : oversizeImage.length > MEMORY_SIZE := by rw [oversize_length]; decide
    exact main_oversize oversizeImage h fuel

/-- C27 (amended): for every program image of length `L ≤ 1048576` bytes in
which each word at offsets 0, 4, 8, ... below `4 * (L / 4)` has opcode 0x33,
0x13, 0x37 or 0x17, the Task3 engine started at PC = 0 executes exactly
`L / 4` instructions (more than `L / 4` passes of the loop are not needed to
see it) and then stops through the end-of-stream path with PC = `4 * (L / 4)`;
the instructions are executed in address order: after `k ≤ L / 4` of them the
PC is `4 * k`. -/
theorem straight_line_terminates (image : List Nat) (hL : image.length ≤ 1048576)
    (hops : StraightLine image) (fuel : Nat) (hfuel : image.length / 4 < fuel) :
    (∃ m', Task3.main image fuel = RunResult.done m' (image.length / 4) ∧
      m'.programCounter = 4 * (image.length / 4) ∧
      fetch image m'.programCounter = none) ∧
    (∀ k, k ≤ image.length / 4 →
      ∃ mk, Task3.stepN image k (loadedMachine image) = some (Outcome.running mk) ∧
        mk.programCounter = 4 * k) := by
  constructor
  · rw [main_eq_runLoop image hL]
    obtain ⟨m', h, hp⟩ := runLoop_straight image hL hops (image.length / 4) 0 fuel
      (loadedMachine image) 0 rfl (by omega) hfuel
    refine ⟨m', by rw [h, Nat.zero_add], hp, ?_⟩
    rw [hp]
    exact fetch_none_at_end image
  · intro k hk
    obtain ⟨mk, h1, h2⟩ := stepN_straight image hL hops k 0 (loadedMachine image) rfl
      (by omega)
    exact ⟨mk, h1, by rw [h2, Nat.zero_add]⟩

theorem straight_line_terminates_witness :
    (∃ m', Task3.main straightImage 3 = RunResult.done m' 2 ∧ m'.programCounter = 8) ∧
    (∃ m', Task3.main shiftImage 3 = RunResult.done m' 2 ∧ m'.programCounter = 8) := by
  obtain ⟨⟨m1, h1, p1, _⟩, _⟩ := straight_line_terminates straightImage (by decide) (by decide) 3
    (by decide)
  obtain ⟨⟨m2, h2, p2, _⟩, _⟩ := straight_line_terminates shiftImage (by decide) (by decide) 3
    (by decide)
  exact ⟨⟨m1, h1, p1⟩, ⟨m2, h2, p2⟩⟩

/-! ## C28 -/

theorem processRType_writes_rd (m m' : Machine) (w : Nat)
    (h : Task3.processRType m w = some m') : RegStepAt (rdOf w) m.registers m'.registers := by
  unfold Task3.processRType at h
  simp only [Option.some.injEq] at h
  subst h
  simp only [advance]
  split
  all_goals (try split)
  all_goals (try split)
  all_goals first | exact Or.inl rfl | exact Or.inr ⟨_, rfl⟩

theorem processIType_writes_rd (m m' : Machine) (w : Nat)
    (h : Task3.processIType m w = some m') : RegStepAt (rdOf w) m.registers m'.registers := by
  unfold Task3.processIType at h
  simp only [Option.some.injEq] at h
  subst h
  simp only [advance]
  split
  all_goals (try split)
  all_goals first | exact Or.inl rfl | exact Or.inr ⟨_, rfl⟩

theorem processLType_writes_rd (m m' : Machine) (w : Nat)
    (h : Task3.processLType m w = some m') : RegStepAt (rdOf w) m.registers m'.registers := by
  unfold Task3.processLType at h
  simp only [Option.some.injEq] at h
  subst h
  simp only [advance]
  split
  all_goals first | exact Or.inl rfl | exact Or.inr ⟨_, rfl⟩

theorem processUType_writes_rd (m m' : Machine) (w : Nat)
    (h : Task3.processUType m w = some m') : RegStepAt (rdOf w) m.registers m'.registers := by
  unfold Task3.processUType at h
  split at h
  all_goals simp only [Option.some.injEq] at h
  all_goals subst h
  all_goals simp only [advance]
  all_goals first | exact Or.inl rfl | exact Or.inr ⟨_, rfl⟩

theorem execute_writes_rd (m m' : Machine) (w : Nat)
    (h : Task3.execute m w = some (Outcome.running m')) :
    RegStepAt (rdOf w) m.registers m'.registers := by
  unfold Task3.execute at h
  split at h
  all_goals simp only [Option.map_eq_some', Option.some.injEq, Outcome.running.injEq] at h
  case h_5 => exact absurd h (by simp)
  case h_11 => subst h; exact Or.inl rfl
  all_goals obtain ⟨m1, hm1, rfl⟩ := h
  · exact processRType_writes_rd _ _ _ hm1
  · exact processIType_writes_rd _ _ _ hm1
  · exact Or.inl (processSType_regs _ _ _ hm1)
  · exact processUType_writes_rd _ _ _ hm1
  · exact processUType_writes_rd _ _ _ hm1
  · exact Or.inl (processBType_regs _ _ _ hm1)
  · simp only [Task3.processJALType, Option.some.injEq] at hm1
    subst hm1; exact Or.inr ⟨_, rfl⟩
  · simp only [Task3.processJALRType, Option.some.injEq] at hm1
    subst hm1; exact Or.inr ⟨_, rfl⟩
  · exact processLType_writes_rd _ _ _ hm1

theorem field_lt (x : Nat) : x &&& 0x1F < NUM_REGISTERS := by
  have h : x &&& 0x1F ≤ 0x1F := Nat.and_le_right
  unfold NUM_REGISTERS; omega

theorem clip_rd (r : Nat → Register) (w : Nat) : clipRegisters r (rdOf w) = r (rdOf w) := by
  simp only [clipRegisters, rdOf, if_pos (field_lt _)]

theorem clip_rs1 (r : Nat → Register) (w : Nat) : clipRegisters r (rs1Of w) = r (rs1Of w) := by
  simp only [clipRegisters, rs1Of, if_pos (field_lt _)]

theorem clip_rs2 (r : Nat → Register) (w : Nat) : clipRegisters r (rs2Of w) = r (rs2Of w) := by
  simp only [clipRegisters, rs2Of, if_pos (field_lt _)]

theorem clip_write (r : Nat → Register) (w v : Nat) :
    writeRegister (clipRegisters r) (rdOf w) v = clipRegisters (writeRegister r (rdOf w) v) := by
  have hlt : rdOf w < NUM_REGISTERS := field_lt _
  unfold writeRegister
  rw [clip_rd]
  by_cases h : (r (rdOf w)).locked = 0
  · rw [if_pos h, if_pos h]
    funext i
    by_cases hi : i = rdOf w
    · subst hi; simp [clipRegisters, hlt]
    · simp [clipRegisters, hi]
  · rw [if_neg h, if_neg h]

theorem processRType_clip (m : Machine) (w : Nat) :
    Task3.processRType (clipMachine m) w = (Task3.processRType m w).map clipMachine := by
  unfold Task3.processRType
  simp only [Option.map_some', clipMachine, readRegister, clip_rs1, clip_rs2, clip_write, advance]
  split <;> (try split) <;> (try split) <;> rfl

theorem processIType_clip (m : Machine) (w : Nat) :
    Task3.processIType (clipMachine m) w = (Task3.processIType m w).map clipMachine := by
  unfold Task3.processIType
  simp only [Option.map_some', clipMachine, readRegister, clip_rs1, clip_write, advance]
  split <;> (try split) <;> rfl

theorem processSType_clip (m : Machine) (w : Nat) :
    Task3.processSType (clipMachine m) w = (Task3.processSType m w).map clipMachine := by
  unfold Task3.processSType
  simp only [Option.map_some', clipMachine, clip_rs1, clip_rs2]

theorem processLType_clip (m : Machine) (w : Nat) :
    Task3.processLType (clipMachine m) w = (Task3.processLType m w).map clipMachine := by
  unfold Task3.processLType
  simp only [Option.map_some', clipMachine, clip_rs1, clip_write, advance]
  split <;> rfl

theorem processUType_clip (m : Machine) (w : Nat) :
    Task3.processUType (clipMachine m) w = (Task3.processUType m w).map clipMachine := by
  unfold Task3.processUType
  split <;> simp only [Option.map_some', clipMachine, advance, clip_write]

theorem processBType_clip (m : Machine) (w : Nat) :
    Task3.processBType (clipMachine m) w = (Task3.processBType m w).map clipMachine := by
  unfold Task3.processBType
  simp only [clipMachine, clip_rs1, clip_rs2]
  split <;> rfl

theorem processJALType_clip (m : Machine) (w : Nat) :
    Task3.processJALType (clipMachine m) w = (Task3.processJALType m w).map clipMachine := by
  simp only [Task3.processJALType, Option.map_some', clipMachine, clip_write]

theorem processJALRType_clip (m : Machine) (w : Nat) :
    Task3.processJALRType (clipMachine m) w = (Task3.processJALRType m w).map clipMachine := by
  simp only [Task3.processJALRType, Option.map_some', clipMachine, clip_write, clip_rs1]

theorem execute_clip (m : Machine) (w : Nat) :
    Task3.execute (clipMachine m) w = (Task3.execute m w).map clipOutcome := by
  unfold Task3.execute
  split <;> simp only [processRType_clip, processIType_clip, processSType_clip,
    processLType_clip, processUType_clip, processBType_clip, processJALType_clip,
    processJALRType_clip, Option.map_map, Option.map_some'] <;> rfl


/-- C28: for every instruction word, the indices `rd`, `rs1` and `rs2` that
the Task3 handlers pass to `readRegister` and `writeRegister` or use to index
the register array are the word's fields masked with 0x1F and lie in 0..31;
one engine step changes no register entry other than `rd`, in particular none
outside the array; and its result does not depend on any entry outside the
array (replacing them all by a fixed value commutes with the step). -/
theorem register_indices_in_range :
    (∀ w, rdOf w = (w >>> 7) &&& 0x1F ∧ rs1Of w = (w >>> 15) &&& 0x1F ∧
      rs2Of w = (w >>> 20) &&& 0x1F) ∧
    (∀ w, rdOf w < NUM_REGISTERS ∧ rs1Of w < NUM_REGISTERS ∧ rs2Of w < NUM_REGISTERS) ∧
    (∀ (m m' : Machine) (w : Nat), Task3.execute m w = some (Outcome.running m') →
      ∀ j, j ≠ rdOf w → m'.registers j = m.registers j) ∧
    (∀ (m m' : Machine) (w : Nat), Task3.execute m w = some (Outcome.running m') →
      ∀ j, NUM_REGISTERS ≤ j → m'.registers j = m.registers j) ∧
    (∀ (m : Machine) (w : Nat),
      Task3.execute (clipMachine m) w = (Task3.execute m w).map clipOutcome) := by
  have hb : ∀ w, rdOf w < NUM_REGISTERS ∧ rs1Of w < NUM_REGISTERS ∧ rs2Of w < NUM_REGISTERS :=
    fun w => ⟨field_lt _, field_lt _, field_lt _⟩
  have hf : ∀ (m m' : Machine) (w : Nat), Task3.execute m w = some (Outcome.running m') →
      ∀ j, j ≠ rdOf w → m'.registers j = m.registers j := by
    intro m m' w h j hj
    rcases execute_writes_rd m m' w h with e | ⟨v, e⟩
    · rw [e]
    · rw [e, writeRegister_other _ _ _ _ hj]
  refine ⟨fun w => ⟨rfl, rfl, rfl⟩, hb, hf, ?_, execute_clip⟩
  intro m m' w h j hj
  have := (hb w).1
  exact hf m m' w h j (by omega)

theorem register_indices_in_range_witness :
    rdOf 0xFFFFFFFF = 31 ∧ rs1Of 0xFFFFFFFF = 31 ∧ rs2Of 0xFFFFFFFF = 31 ∧
    (∃ m', Task3.execute machineA 0x002081B3 = some (Outcome.running m') ∧
      m'.registers 32 = machineA.registers 32 ∧ m'.registers 2 = machineA.registers 2) :=
  ⟨by decide, by decide, by decide, _, rfl,
   register_indices_in_range.2.2.2.1 machineA _ 0x002081B3 rfl 32 (by decide),
   register_indices_in_range.2.2.1 machineA _ 0x002081B3 rfl 2 (by decide)⟩

end RiscVSimulator
